import Mathlib

/-!
Verification development for the OSINT collection orchestrator
(`runSafeOsintCollection` and its pure helpers).

The TypeScript source is shallowly embedded:
* pure helpers (`normalizeTarget`, `normalizePhone`, `guessTargetType`,
  `extractIndicators`, `computeConfidence`, `uniqueByValue`, entity dedup,
  `extractUsernameFromKnownProfileUrl`) become Lean functions;
* the effectful orchestrator becomes a fuel-indexed state-passing function
  over an explicit environment `Env` that supplies the platform primitives
  (fetch/JSON responses, DNS answers, the web-search adapter, the WHATWG URL
  parser and the regex engine) together with the wall-clock duration of each
  external call;
* JavaScript numbers are modelled as rationals, `metadata.confidence` as an
  optional rational (absent or non-numeric values both map to `none`, exactly
  as `Number(...)` maps them to NaN which the source filters out);
* the model additionally records an observation trace (probe starts, search
  queries, recursive sub-calls, progress steps) and a `viaFinal` flag on the
  result; these are write-only instrumentation and influence no computed
  evidence/entity/confidence value.
-/

set_option linter.unusedVariables false
set_option maxHeartbeats 1000000

/- The Batteries rational-number operations are `@[irreducible]`, which only
restricts elaborator-side evaluation; witnesses below evaluate concrete
confidences, so restore the default reducibility. -/
set_option allowUnsafeReducibility true
attribute [local semireducible] Rat.ofScientific Rat.mul Rat.add Rat.sub Rat.inv

namespace Osint

/-- The common members of the JS whitespace class (regex backslash-s and
String.prototype.trim). -/
def isJsWs (c : Char) : Bool :=
  c = ' ' || c = '\t' || c = '\n' || c = '\r' ||
  c.toNat = 11 || c.toNat = 12 || c.toNat = 160 ||
  c.toNat = 0x2028 || c.toNat = 0x2029 || c.toNat = 0xfeff

/-- JS `String.prototype.trim`. -/
def jsTrim (s : String) : String :=
  String.mk (((s.toList.dropWhile isJsWs).reverse.dropWhile isJsWs).reverse)

/-- `String.prototype.toLowerCase`, code point by code point.  (The model
uses this instead of `String.toLower` — they agree, but this one also reduces
definitionally on concrete strings, which the concrete-run theorems below
need.) -/
def lowerStr (s : String) : String := String.mk (s.toList.map Char.toLower)

/-- `String.prototype.startsWith` (again in a definitionally reducing form). -/
def startsWithStr (s p : String) : Bool := p.toList.isPrefixOf s.toList

/-- `String.prototype.split` at a single-character separator (every use in
the source splits at one character). -/
def splitOnCh (sep : Char) (s : String) : List String := go s.toList []
where
  go : List Char → List Char → List String
    | [], acc => [String.mk acc.reverse]
    | c :: cs, acc =>
      if c = sep then String.mk acc.reverse :: go cs []
      else go cs (c :: acc)

/-- `String.prototype.includes` of a single character. -/
def containsCh (s : String) (c : Char) : Bool := s.toList.contains c

/-- JS line-terminator characters (the characters a regex dot does not match). -/
def isLineTerm (c : Char) : Bool :=
  c = '\n' || c = '\r' || c.toNat = 0x2028 || c.toNat = 0x2029

/-- Ordered de-duplication, i.e. `Array.from(new Set(xs))`. -/
def dedupKeepFirst (l : List String) : List String :=
  go [] l
where
  go (seen : List String) : List String → List String
    | [] => []
    | x :: xs => if seen.contains x then go seen xs else x :: go (x :: seen) xs

/-- Stable first-seen-wins filter keyed by `key`, i.e. the
`seen.has(k) ? false : (seen.add(k), true)` filter idiom of the source. -/
def dedupByKey {α : Type} (key : α → String) (l : List α) : List α :=
  go [] l
where
  go (seen : List String) : List α → List α
    | [] => []
    | x :: xs =>
      if seen.contains (key x) then go seen xs
      else x :: go (key x :: seen) xs

/-- `normalizePhone`: strip everything but digits and plus signs, then keep a
single leading plus and drop every other non-digit. -/
def normalizePhone (raw : String) : String :=
  let digits := String.mk (raw.toList.filter (fun c => c.isDigit || c = '+'))
  if startsWithStr digits "+" then
    "+" ++ String.mk ((digits.drop 1).toList.filter Char.isDigit)
  else
    String.mk (digits.toList.filter Char.isDigit)

/-- Strip a leading `http://` or `https://` (case-insensitively), as the
first replace of `normalizeTarget` does. -/
def stripHttpScheme (s : String) : String :=
  if startsWithStr (lowerStr s) "https://" then s.drop 8
  else if startsWithStr (lowerStr s) "http://" then s.drop 7
  else s

/-- The second replace of `normalizeTarget`: `replace(/\/.*$/, "")`. A JS dot
does not cross line terminators and the anchor is the very end of the string,
so the removed part starts at the first slash that has no line terminator
after it. -/
def dropPathPart : List Char → List Char
  | [] => []
  | c :: rest =>
    if c = '/' && rest.all (fun d => !isLineTerm d) then []
    else c :: dropPathPart rest

/-- `normalizeTarget`: trim, strip the scheme, drop everything from the first
slash on. -/
def normalizeTarget (t : String) : String :=
  String.mk (dropPathPart (stripHttpScheme (jsTrim t)).toList)

/-- Test for the dotted-quad pattern `^\d{1,3}(\.\d{1,3}){3}$`. -/
def isDottedQuad (s : String) : Bool :=
  let parts := splitOnCh '.' s
  parts.length = 4 &&
    parts.all (fun p => p.length ≥ 1 && p.length ≤ 3 && p.toList.all Char.isDigit)

/-- Search for the pattern `\d{1,6}\s+\S+`: some digit, then at least one
whitespace character, then a non-whitespace character. -/
def digitWsToken : List Char → Bool
  | [] => false
  | c :: cs => (c.isDigit && wsThenNonWs cs) || digitWsToken cs
where
  wsThenNonWs : List Char → Bool
    | [] => false
    | c :: rest => isJsWs c && !(rest.dropWhile isJsWs).isEmpty

/-- The number of elements of `s.split(/\s+/)` (a leading or trailing
whitespace run contributes an empty element, and the empty string yields a
single empty element). -/
def jsSplitWsLen (s : String) : Nat :=
  if s = "" then 1
  else
    let cs := s.toList
    let runs := countRuns cs false 0
    (if isJsWs (cs.headD 'x') then 1 else 0) + runs +
      (if isJsWs (cs.getLastD 'x') then 1 else 0)
where
  /-- Count maximal non-whitespace runs. -/
  countRuns : List Char → Bool → Nat → Nat
    | [], _, n => n
    | c :: cs, inRun, n =>
      if isJsWs c then countRuns cs false n
      else if inRun then countRuns cs true n
      else countRuns cs true (n + 1)

/-- `guessTargetType`, an if-chain over string heuristics.  Target types are
kept as plain strings because the source casts the caller-supplied
`targetType` string unchecked. -/
def guessTargetType (target : String) : String :=
  if isDottedQuad target then "ip"
  else if containsCh target '@' then "email"
  else if containsCh target '.' && !containsCh target ' ' then "domain"
  else
    let digits := target.toList.filter Char.isDigit
    if digits.length ≥ 10 && digits.length ≤ 15 then "phone"
    else if digitWsToken target.toList || containsCh target ',' then "address"
    else if target.toList.any Char.isAlpha && jsSplitWsLen (jsTrim target) ≥ 2 then "name"
    else "username"

/-- One collected evidence draft.  `conf` models `metadata.confidence`: the
source always stores a numeric confidence in this module, and
`computeConfidence` maps an absent or non-numeric value to NaN and filters it,
which `none` models. -/
structure EvidenceDraft where
  type : String
  title : String
  source : String
  content : String
  tags : List String
  conf : Option Rat
deriving DecidableEq, Repr

/-- One discovered entity draft (`riskLevel` is never set by this module, so
it is not modelled; metadata is the finite string map the module builds). -/
structure EntityDraft where
  entityType : String
  value : String
  metadata : List (String × String)
deriving DecidableEq, Repr

/-- Dedup key of an entity: `lower(entityType + ":" + value)`. -/
def entityKey (e : EntityDraft) : String :=
  lowerStr (e.entityType ++ ":" ++ e.value)

/-- The end-of-run entity de-duplication of `runSafeOsintCollection`. -/
def dedupEntities (l : List EntityDraft) : List EntityDraft :=
  dedupByKey entityKey l

/-- The confidence values `computeConfidence` keeps: present, numeric and in
the range 0..1. -/
def confVals (evidence : List EvidenceDraft) : List Rat :=
  (evidence.filterMap (·.conf)).filter
    (fun n => decide ((0 : Rat) ≤ n) && decide (n ≤ 1))

/-- Round to three decimal places (`Number(x.toFixed(3))` on the ideal
decimal value, half away from zero; all inputs here are nonnegative). -/
def round3 (q : Rat) : Rat :=
  (((q * 1000 + 1/2 : Rat).floor : Int) : Rat) / 1000

/-- `computeConfidence`: 0 when no valid per-item confidence exists,
otherwise the clamped, 3-decimal-rounded mean of the valid values. -/
def computeConfidence (evidence : List EvidenceDraft) : Rat :=
  let vals := confVals evidence
  if vals.length = 0 then 0
  else max 0 (min 1 (round3 (vals.sum / (vals.length : Rat))))

/-- `uniqueByValue`: ordered case-insensitive de-duplication of trimmed
values, dropping empties. -/
def uniqueByValue (l : List String) : List String :=
  go [] l
where
  go (seen : List String) : List String → List String
    | [] => []
    | v :: vs =>
      let k := lowerStr (jsTrim v)
      if k = "" || seen.contains k then go seen vs
      else jsTrim v :: go (k :: seen) vs

/-! JSON values, as produced by `JSON.parse` on the fetched payloads.
Numbers are rationals. -/

inductive Json where
  | null : Json
  | bool (b : Bool) : Json
  | num (q : Rat) : Json
  | str (s : String) : Json
  | arr (xs : List Json) : Json
  | obj (fields : List (String × Json)) : Json

/-- JS truthiness of a JSON value. -/
def Json.truthy : Json → Bool
  | .null => false
  | .bool b => b
  | .num q => q ≠ 0
  | .str s => s ≠ ""
  | .arr _ => true
  | .obj _ => true

/-- Field access `j?.k` — `none` models `undefined`. -/
def Json.getField : Json → String → Option Json
  | .obj fields, k => (fields.find? (fun p => p.1 = k)).map (·.2)
  | _, _ => none

/-- Index access `j?.[i]`. -/
def Json.getIdx : Json → Nat → Option Json
  | .arr xs, i => xs.get? i
  | _, _ => none

/-- Truthiness of a possibly-undefined value. -/
def optTruthy : Option Json → Bool
  | some j => j.truthy
  | none => false

/-- Render a nonnegative natural, zero-padded on the left to `w` digits. -/
def padZeros (w : Nat) (s : String) : String :=
  if s.length ≥ w then s
  else String.mk (List.replicate (w - s.length) '0') ++ s

/-- Decimal rendering of a rational, matching the JS rendering for numbers
with a finite decimal expansion of at most twenty digits. -/
def ratToJsString (q : Rat) : String :=
  if q.den = 1 then toString q.num
  else
    match (List.range 20).find? (fun k => (q * ((10 ^ (k + 1) : Nat) : Rat)).den = 1) with
    | some k =>
      let n := (q * ((10 ^ (k + 1) : Nat) : Rat)).num
      let sign := if n < 0 then "-" else ""
      let a := n.natAbs
      sign ++ toString (a / 10 ^ (k + 1)) ++ "." ++
        padZeros (k + 1) (toString (a % 10 ^ (k + 1)))
    | none => toString q

/-- Escape a string for JSON output (quotes and backslashes). -/
def jsonQuote (s : String) : String :=
  "\"" ++ s.toList.foldl (fun acc c =>
    if c = '"' then acc ++ "\\\""
    else if c = '\\' then acc ++ "\\\\"
    else if c = '\n' then acc ++ "\\n"
    else acc.push c) "" ++ "\""

mutual

/-- Compact `JSON.stringify` (the evidence `content` strings; whitespace of
the pretty-printed source output is immaterial and not reproduced). -/
def Json.render : Json → String
  | .null => "null"
  | .bool true => "true"
  | .bool false => "false"
  | .num q => ratToJsString q
  | .str s => jsonQuote s
  | .arr xs => "[" ++ Json.renderArr xs ++ "]"
  | .obj fs => "\x7b" ++ Json.renderObj fs ++ "\x7d"

def Json.renderArr : List Json → String
  | [] => ""
  | [x] => x.render
  | x :: xs => x.render ++ "," ++ Json.renderArr xs

def Json.renderObj : List (String × Json) → String
  | [] => ""
  | [(k, v)] => jsonQuote k ++ ":" ++ v.render
  | (k, v) :: fs => jsonQuote k ++ ":" ++ v.render ++ "," ++ Json.renderObj fs

end

mutual

/-- JS `String(...)` coercion of a JSON value. -/
def Json.toJsStr : Json → String
  | .null => "null"
  | .bool true => "true"
  | .bool false => "false"
  | .num q => ratToJsString q
  | .str s => s
  | .arr xs => Json.toJsStrArr xs
  | .obj _ => "[object Object]"

def Json.toJsStrArr : List Json → String
  | [] => ""
  | [x] => x.toJsStr
  | x :: xs => x.toJsStr ++ "," ++ Json.toJsStrArr xs

end

/-! The platform regex engine.  The four global scans used by the module
(email, IPv4, domain and phone patterns) are platform primitives of the
model: the orchestration logic around them (case folding, set semantics,
caps, unions, dedup) is translated exactly, and every theorem below holds
for an arbitrary engine, hence for the concrete JS patterns. -/

structure ReEngine where
  emails : String → List String
  ips : String → List String
  domains : String → List String
  phones : String → List String

/-- Hostname/path of a parsed URL (`new URL(u)`).  WHATWG URL parsing is a
platform primitive supplied by the environment; `none` models the `TypeError`
that `tryParseUrl` converts to `null`. -/
structure UrlParts where
  hostname : String
  pathname : String
deriving DecidableEq, Repr

/-- `{platform, username}` result of the known-profile-URL parser. -/
structure Profile where
  platform : String
  username : String
deriving DecidableEq, Repr

/-- `hostname.replace(/^www\./i, "")`. -/
def stripWww (h : String) : String :=
  if startsWithStr (lowerStr h) "www." then h.drop 4 else h

/-- `first.replace(/^@/, "")`. -/
def stripAt (s : String) : String :=
  if startsWithStr s "@" then s.drop 1 else s

/-- `extractUsernameFromKnownProfileUrl`, verbatim from the source, over a
platform URL parser (the dead `first === "@"+first` TikTok guard included). -/
def extractUsernameFromKnownProfileUrl
    (parseUrl : String → Option UrlParts) (u : String) : Option Profile :=
  match parseUrl u with
  | none => none
  | some url =>
    let host := stripWww (lowerStr url.hostname)
    let parts := (splitOnCh '/' url.pathname).filter (· ≠ "")
    match parts with
    | [] => none
    | first :: rest =>
      let second := rest.head?
      if host = "instagram.com" && first ≠ "" &&
          !(List.contains ["p", "reel", "tv", "stories", "explore", "accounts"] first) then
        some ⟨"instagram", first⟩
      else if (host = "facebook.com" || host = "fb.com") && first ≠ "" &&
          !(List.contains ["people", "profile.php", "pages", "watch", "groups", "marketplace"] first) then
        some ⟨"facebook", first⟩
      else if (host = "twitter.com" || host = "x.com") && first ≠ "" &&
          !(List.contains ["home", "i", "search", "intent"] first) then
        some ⟨"x", stripAt first⟩
      else if host = "tiktok.com" && first = "@" ++ first && startsWithStr first "@" then
        some ⟨"tiktok", first.drop 1⟩
      else if host = "tiktok.com" && startsWithStr first "@" then
        some ⟨"tiktok", first.drop 1⟩
      else if host = "linkedin.com" && first = "in" then
        match second with
        | some s => if s ≠ "" then some ⟨"linkedin", s⟩ else none
        | none => none
      else if host = "github.com" && first ≠ "" &&
          !(List.contains ["features", "pricing", "about", "site", "orgs", "settings"] first) then
        some ⟨"github", first⟩
      else none

/-- After a case-insensitive label prefix and optional whitespace, expect a
colon and return the rest — the combined `/^label\s*:/i` test-and-strip. -/
def labelRest (label : String) (l : String) : Option String :=
  if startsWithStr (lowerStr l) label then
    match (l.drop label.length).toList.dropWhile isJsWs with
    | ':' :: v => some (String.mk v)
    | _ => none
  else none

/-- Test for `/^label\s*:/i`. -/
def labelTest (label : String) (l : String) : Bool :=
  (labelRest label l).isSome

/-- The `badPrefix` alternation `/^(phone|email|domain|username|user|name)\s*:/i`. -/
def badLabel (l : String) : Bool :=
  ["phone", "email", "domain", "username", "user", "name"].any
    (fun lab => labelTest lab l)

/-- JS word characters (regex word class). -/
def isWordChar (c : Char) : Bool :=
  c.isAlphanum || c = '_'

/-- Whether `cs` begins with `kw` followed by a word boundary. -/
def wordHere (kw : List Char) (cs : List Char) : Bool :=
  match kw, cs with
  | [], [] => true
  | [], d :: _ => !isWordChar d
  | _ :: _, [] => false
  | k :: ks, d :: ds => k = d && wordHere ks ds

/-- Search for any of the keywords delimited by word boundaries, scanning
every position (`prev` is the character before the current position). -/
def containsWordIn (kws : List (List Char)) : Option Char → List Char → Bool
  | _, [] => false
  | prev, c :: cs =>
    (boundaryOk prev && kws.any (fun kw => wordHere kw (c :: cs))) ||
      containsWordIn kws (some c) cs
where
  boundaryOk : Option Char → Bool
    | none => true
    | some p => !isWordChar p

/-- The street-suffix keyword test
`/\b(st|street|ave|avenue|rd|road|blvd|boulevard|dr|drive|ln|lane|ct|court|way|hwy|highway|pkwy|parkway)\b/i`. -/
def streetHint (line : String) : Bool :=
  containsWordIn
    (["st", "street", "ave", "avenue", "rd", "road", "blvd", "boulevard",
      "dr", "drive", "ln", "lane", "ct", "court", "way", "hwy", "highway",
      "pkwy", "parkway"].map String.toList)
    none (lowerStr line).toList

/-- One extracted indicator candidate. -/
structure Indicator where
  type : String
  value : String
deriving DecidableEq, Repr

/-- The `add` helper of `extractIndicators`: trim, drop empties, append. -/
def indAdd (out : List Indicator) (ty v : String) : List Indicator :=
  let v := jsTrim v
  if v = "" then out else out ++ [⟨ty, v⟩]

/-- The case-folded, set-deduplicated email matches. -/
def emailsOf (re : ReEngine) (text : String) : List String :=
  dedupKeepFirst ((re.emails text).map lowerStr)

/-- The domain candidate pool: the set-deduplicated lower-cased domain
matches, unioned with the domain part of every extracted email (the cap of 3
is applied after this union). -/
def domainPool (re : ReEngine) (text : String) : List String :=
  let base := dedupKeepFirst ((re.domains text).map lowerStr)
  (emailsOf re text).foldl
    (fun ds e =>
      match (splitOnCh '@' e).get? 1 with
      | some d =>
        if d ≠ "" then
          (if ds.contains (lowerStr d) then ds else ds ++ [lowerStr d])
        else ds
      | none => ds)
    base

/-- The phone candidate list: normalized set-deduplicated matches, empties
dropped, capped at 2. -/
def phonesOf (re : ReEngine) (text : String) : List String :=
  ((dedupKeepFirst ((re.phones text).map normalizePhone)).filter (· ≠ "")).take 2

/-- The trimmed, nonempty lines of the text (`split(/\r?\n/)`, trim, filter;
a trailing carriage return is removed by the trim). -/
def linesOf (text : String) : List String :=
  ((splitOnCh '\n' text).map jsTrim).filter (· ≠ "")

/-- The address-line heuristic: leading street number together with a comma
or a street keyword, or a comma plus digit in a line longer than 12. -/
def addressCond (line : String) : Bool :=
  let hasStreetNumber := digitWsToken line.toList
  let hasComma := containsCh line ',' && line.toList.any Char.isDigit
  let hasStreetWord := streetHint line
  (hasStreetNumber && (hasComma || hasStreetWord)) || (hasComma && line.length > 12)

/-- The address extraction step: prefer an explicit `Address:` line, stripped
of its label; otherwise the first non-labelled line satisfying the address
heuristic. -/
def addressStep (lines : List String) (out : List Indicator) : List Indicator :=
  match lines.find? (fun l => labelTest "address" l) with
  | some l =>
    match labelRest "address" l with
    | some v => if jsTrim v ≠ "" then indAdd out "address" (jsTrim v) else out
    | none => out
  | none =>
    match lines.find? (fun line => !badLabel line && addressCond line) with
    | some line => indAdd out "address" line
    | none => out

/-- The name-line candidate: an explicit `Name:` line, stripped and trimmed,
or else the first short multi-word line with a letter. -/
def nameLineOf (lines : List String) : Option String :=
  match lines.find? (fun l => labelTest "name" l) with
  | some l => (labelRest "name" l).map jsTrim
  | none =>
    lines.find? (fun l =>
      l.toList.any Char.isAlpha && jsSplitWsLen l ≥ 2 && l.length ≤ 80)

/-- The name extraction step (a truthy name line is added). -/
def nameStep (lines : List String) (out : List Indicator) : List Indicator :=
  match nameLineOf lines with
  | some v => if v ≠ "" then indAdd out "name" v else out
  | none => out

/-- `extractIndicators`: ordered extraction of email, ip, domain, phone,
address and name candidates, each step independently capped, with a final
case-insensitive `type:value` de-duplication. -/
def extractIndicators (re : ReEngine) (text : String) : List Indicator :=
  let out : List Indicator := []
  let out := ((emailsOf re text).take 3).foldl (fun o e => indAdd o "email" e) out
  let out := ((dedupKeepFirst (re.ips text)).take 3).foldl (fun o i => indAdd o "ip" i) out
  let out := ((domainPool re text).take 3).foldl (fun o d => indAdd o "domain" d) out
  let out := (phonesOf re text).foldl (fun o p => indAdd o "phone" p) out
  let lines := linesOf text
  let out := addressStep lines out
  let out := nameStep lines out
  dedupByKey (fun i => lowerStr (i.type ++ ":" ++ i.value)) out

/-! `encodeURIComponent`. -/

/-- UTF-8 bytes of a character. -/
def utf8Bytes (c : Char) : List Nat :=
  let n := c.toNat
  if n < 0x80 then [n]
  else if n < 0x800 then [0xC0 + n / 64, 0x80 + n % 64]
  else if n < 0x10000 then [0xE0 + n / 4096, 0x80 + (n / 64) % 64, 0x80 + n % 64]
  else [0xF0 + n / 262144, 0x80 + (n / 4096) % 64, 0x80 + (n / 64) % 64, 0x80 + n % 64]

/-- Uppercase hex digit. -/
def hexDigitCh (n : Nat) : Char :=
  if n < 10 then Char.ofNat (48 + n) else Char.ofNat (55 + n)

/-- The characters `encodeURIComponent` leaves unescaped. -/
def isUriUnreserved (c : Char) : Bool :=
  c.isAlphanum || c = '-' || c = '_' || c = '.' || c = '!' || c = '~' ||
  c = '*' || c.toNat = 39 || c = '(' || c = ')'

/-- `encodeURIComponent`: percent-encode the UTF-8 bytes of every reserved
character, uppercase hex. -/
def encodeURIComponent (s : String) : String :=
  s.toList.foldl (fun acc c =>
    if isUriUnreserved c then acc.push c
    else (utf8Bytes c).foldl (fun a b =>
      (a.push '%').push (hexDigitCh (b / 16)) |>.push (hexDigitCh (b % 16))) acc) ""

/-! The environment: platform primitives and external sources, together with
the wall-clock duration of every external call.  `Except.error` models a
rejected promise (non-2xx status, network failure, malformed JSON), carrying
the JS error message the source stringifies into failure evidence. -/

/-- One normalized web-search result record. -/
structure SearchRec where
  title : Option String
  url : Option String
  snippet : Option String
deriving DecidableEq, Repr

/-- The web-search adapter response (`{provider, query, results}`; the query
echo is unused by the orchestrator and not modelled). -/
structure WebResp where
  provider : String
  results : Option (List SearchRec)
deriving DecidableEq, Repr

/-- The world the orchestrator runs against. -/
structure Env where
  re : ReEngine
  searchProvider : String
  webSearch : String → Nat → Nat → Except String WebResp
  searchDur : String → Nat
  dns4 : String → Except Unit (List String)
  dns6 : String → Except Unit (List String)
  dnsNs : String → Except Unit (List String)
  dnsMx : String → Except Unit Json
  dnsDur : String → Nat
  fetchJson : String → Except String Json
  fetchDur : String → Nat
  parseUrl : String → Option UrlParts

/-- The collection options (`onStep` is modelled by the trace;
`startedAtMs` models the internal `_startedAtMs`). -/
structure Opts where
  depth : Option String := none
  timeBudgetMs : Option Nat := none
  skipWebSearch : Bool := false
  startedAtMs : Option Nat := none
deriving DecidableEq, Repr

/-- The orchestrator input record. -/
structure Input where
  target : String
  targetType : Option String := none
deriving DecidableEq, Repr

/-- Observation-trace events: recursive sub-invocations (recorded at the
call site, with the options the caller passes), probe-block starts,
dispatched web-search queries and progress steps.  `ld` is the ghost
lead-following nesting depth. -/
inductive TraceEv where
  | subCall (kind : String) (childLd : Nat) (parentTarget target ttype : String)
      (skipWS : Bool) (startedAt budget time : Nat)
  | probe (name : String) (ld time : Nat)
  | query (q : String) (ld time : Nat)
  | stepMsg (s : String) (time : Nat)
deriving DecidableEq, Repr

/-- The orchestrator's return value.  `viaFinal` is instrumentation: true
when the value was produced by the end-of-run return (which applies the
entity de-duplication), false on a deadline early return. -/
structure CollectionResult where
  evidence : List EvidenceDraft
  entities : List EntityDraft
  riskDelta : Nat
  confidence : Rat
  viaFinal : Bool
deriving DecidableEq, Repr

/-- A finished invocation: result, final clock and trace. -/
structure RunOut where
  res : CollectionResult
  endNow : Nat
  trace : List TraceEv
deriving DecidableEq, Repr

/-- The mutable state of one invocation: accumulated evidence, entities,
risk delta, the clock and the trace. -/
structure Acc where
  evidence : List EvidenceDraft
  entities : List EntityDraft
  risk : Nat
  now : Nat
  trace : List TraceEv
deriving DecidableEq, Repr

/-- The per-invocation constants: resolved target, type, depth, shared
deadline data and options. -/
structure Ctx where
  env : Env
  target : String
  ttype : String
  depth : String
  startedAt : Nat
  budgetMs : Nat
  skipWS : Bool
  ld : Nat
  opts : Opts

/-- `deadline = startedAt + budgetMs`. -/
def Ctx.deadline (c : Ctx) : Nat := c.startedAt + c.budgetMs

/-- Append one evidence draft (`evidence.push`). -/
def pushEv (acc : Acc) (e : EvidenceDraft) : Acc :=
  { acc with evidence := acc.evidence ++ [e] }

/-- Record a trace event. -/
def pushTr (acc : Acc) (ev : TraceEv) : Acc :=
  { acc with trace := acc.trace ++ [ev] }

/-- `await step(s)` — modelled as a trace event. -/
def stepA (acc : Acc) (s : String) : Acc :=
  pushTr acc (.stepMsg s acc.now)

/-- `addEntity`: trim the value, drop empties, append. -/
def addEnt (acc : Acc) (ty v : String) (md : List (String × String)) : Acc :=
  let v := jsTrim v
  if v = "" then acc
  else { acc with entities := acc.entities ++ [⟨ty, v, md⟩] }

/-- Advance the clock by `d` milliseconds. -/
def tick (acc : Acc) (d : Nat) : Acc :=
  { acc with now := acc.now + d }

/-- Merge a recursive sub-result (`push(...r.evidence)` etc.). -/
def mergeSub (acc : Acc) (out : RunOut) : Acc :=
  { acc with evidence := acc.evidence ++ out.res.evidence,
             entities := acc.entities ++ out.res.entities,
             risk := acc.risk + out.res.riskDelta,
             now := out.endNow,
             trace := acc.trace ++ out.trace }

/-- `"..."` quoting used for search queries. -/
def quoted (s : String) : String := "\"" ++ s ++ "\""

/-- Render one search result for the evidence content. -/
def srJson (r : SearchRec) : Json :=
  .obj ((match r.title with | some t => [("title", Json.str t)] | none => []) ++
        (match r.url with | some u => [("url", Json.str u)] | none => []) ++
        (match r.snippet with | some s => [("snippet", Json.str s)] | none => []))

/-- Entity extraction from one web-search result (URL, hostname, known
profile, emails and phones from title+snippet). -/
def searchItemEnts (env : Env) (r : SearchRec) (acc : Acc) : Acc :=
  let urlTruthy := match r.url with | some u => u != "" | none => false
  let acc :=
    match r.url with
    | some u => if u ≠ "" then addEnt acc "url" u [("from", "web-search")] else acc
    | none => acc
  let parsed := if urlTruthy then env.parseUrl (r.url.getD "") else none
  let acc :=
    match parsed with
    | some p =>
      if p.hostname ≠ "" then
        addEnt acc "domain" (stripWww p.hostname) [("from", "web-search-url")]
      else acc
    | none => acc
  let prof := if urlTruthy then
      extractUsernameFromKnownProfileUrl env.parseUrl (r.url.getD "") else none
  let acc :=
    match prof with
    | some pr =>
      if pr.username ≠ "" then
        addEnt acc "username" pr.username
          [("from", "web-search-profile"), ("platform", pr.platform), ("url", r.url.getD "")]
      else acc
    | none => acc
  let snippet := (r.title.getD "") ++ "\n" ++ (r.snippet.getD "")
  let acc := ((dedupKeepFirst (env.re.emails snippet)).take 3).foldl
    (fun a e => addEnt a "email" (lowerStr e) [("from", "web-search")]) acc
  ((dedupKeepFirst (env.re.phones snippet)).take 2).foldl
    (fun a p => addEnt a "phone" (normalizePhone p) [("from", "web-search")]) acc

/-- The per-query loop of `maybeWebSearch` (deadline-checked per query,
politeness sleep, provider call, evidence plus extracted entities; a failed
query degrades to a low-confidence error evidence item). -/
def searchLoop (c : Ctx) (label : String) : List String → Acc → Acc
  | [], acc => acc
  | q :: rest, acc =>
    if acc.now ≥ c.deadline then acc
    else
      let acc := stepA acc ("Web search (" ++ label ++ "): " ++ q)
      let acc := pushTr acc (.query q c.ld acc.now)
      let acc := tick acc 250
      let limit := if c.depth = "thorough" then 10 else 6
      let tmo := min 15000 (max 5000 (c.deadline - acc.now))
      let acc := tick acc (c.env.searchDur q)
      match c.env.webSearch q limit tmo with
      | .ok resp =>
        let results := resp.results.getD []
        let acc := pushEv acc {
          type := "json",
          title := "Web search results: " ++ q,
          source := if resp.provider ≠ "" then "Web Search (" ++ resp.provider ++ ")"
                    else "Web Search",
          content := (Json.obj [("query", .str q),
            ("results", .arr (results.map srJson))]).render,
          tags := ["web-search"],
          conf := some (if results.isEmpty then (3/20 : Rat) else (9/20 : Rat)) }
        let acc := (results.take 10).foldl (fun a r => searchItemEnts c.env r a) acc
        searchLoop c label rest acc
      | .error m =>
        let acc := pushEv acc {
          type := "text", title := "Web search failed: " ++ q, source := "Web Search",
          content := m, tags := ["web-search", "error"], conf := some (1/10 : Rat) }
        searchLoop c label rest acc

/-- `maybeWebSearch`: empty-query, deadline, `skipWebSearch` and provider
gates, then the bounded query loop. -/
def maybeWebSearch (c : Ctx) (queries : List String) (label : String) (acc : Acc) : Acc :=
  if queries.isEmpty then acc
  else if acc.now ≥ c.deadline then acc
  else if c.skipWS then acc
  else if jsTrim c.env.searchProvider = "" then
    pushEv acc {
      type := "json",
      title := "Web search skipped (no provider configured): " ++ label,
      source := "Web Search",
      content := (Json.obj [("configured", .bool false),
        ("hint", .str "Set OSINT_SEARCH_PROVIDER and provider API key (see config/env.example)")]).render,
      tags := ["web-search", "config"],
      conf := some (1/20 : Rat) }
  else
    searchLoop c label (queries.take (if c.depth = "thorough" then 5 else 2)) acc

/-! The probe blocks of the non-case path, in source order.  A block that
contains a deadline early return has type `Acc → Except Acc Acc`, where
`.error` carries the accumulator of the early `return` (which, in the
source, skips the end-of-run entity de-duplication). -/

/-- DNS collection (domain only): four independently fault-tolerant resolver
calls, then one evidence item; A/AAAA answers become ip entities and NS
answers domain entities. -/
def dnsBlock (c : Ctx) (acc : Acc) : Except Acc Acc :=
  if c.ttype ≠ "domain" then .ok acc
  else if acc.now ≥ c.deadline then .error acc
  else
    let acc := stepA acc ("DNS lookup: " ++ c.target)
    let acc := pushTr acc (.probe "dns" c.ld acc.now)
    let acc := tick acc (c.env.dnsDur ("A:" ++ c.target))
    let r4 := c.env.dns4 c.target
    let summary : List (String × Json) :=
      match r4 with | .ok l => [("A", Json.arr (l.map Json.str))] | .error _ => []
    let acc := match r4 with
      | .ok l => l.foldl (fun a ip => addEnt a "ip" ip []) acc
      | .error _ => acc
    let acc := tick acc (c.env.dnsDur ("AAAA:" ++ c.target))
    let r6 := c.env.dns6 c.target
    let summary := summary ++
      (match r6 with | .ok l => [("AAAA", Json.arr (l.map Json.str))] | .error _ => [])
    let acc := match r6 with
      | .ok l => l.foldl (fun a ip => addEnt a "ip" ip []) acc
      | .error _ => acc
    let acc := tick acc (c.env.dnsDur ("NS:" ++ c.target))
    let rNs := c.env.dnsNs c.target
    let summary := summary ++
      (match rNs with | .ok l => [("NS", Json.arr (l.map Json.str))] | .error _ => [])
    let acc := match rNs with
      | .ok l => l.foldl (fun a ns => addEnt a "domain" ns []) acc
      | .error _ => acc
    let acc := tick acc (c.env.dnsDur ("MX:" ++ c.target))
    let summary := summary ++
      (match c.env.dnsMx c.target with | .ok j => [("MX", j)] | .error _ => [])
    .ok (pushEv acc {
      type := "json", title := "DNS records for " ++ c.target, source := "DNS",
      content := (Json.obj summary).render, tags := ["dns", "enrichment"],
      conf := some (9/10 : Rat) })

/-- Address geocoding (Nominatim): courtesy delay, one GET; the top result
becomes location and address entities; failure degrades to error evidence. -/
def geoBlock (c : Ctx) (acc : Acc) : Except Acc Acc :=
  if c.ttype ≠ "address" then .ok acc
  else if acc.now ≥ c.deadline then .error acc
  else
    let acc := stepA acc ("Geocode (Nominatim): " ++ c.target)
    let acc := pushTr acc (.probe "geocode" c.ld acc.now)
    let url := "https://nominatim.openstreetmap.org/search?format=jsonv2&limit=5&q=" ++
      encodeURIComponent c.target
    let acc := tick acc 250
    let acc := tick acc (c.env.fetchDur url)
    match c.env.fetchJson url with
    | .ok results =>
      let nonEmptyArr := match results with | .arr (_ :: _) => true | _ => false
      let acc := pushEv acc {
        type := "json", title := "Address geocode (Nominatim): " ++ c.target,
        source := "OpenStreetMap Nominatim", content := results.render,
        tags := ["address", "geocode"],
        conf := some (if nonEmptyArr then (4/5 : Rat) else (1/5 : Rat)) }
      let acc :=
        match results.getIdx 0 with
        | some top =>
          if top.truthy then
            let acc :=
              if optTruthy (top.getField "lat") && optTruthy (top.getField "lon") then
                addEnt acc "location"
                  (((top.getField "lat").getD .null).toJsStr ++ "," ++
                   ((top.getField "lon").getD .null).toJsStr) []
              else acc
            if optTruthy (top.getField "display_name") then
              addEnt acc "address" (((top.getField "display_name").getD .null).toJsStr) []
            else acc
          else acc
        | none => acc
      .ok acc
    | .error m =>
      .ok (pushEv acc {
        type := "text", title := "Address geocode failed",
        source := "OpenStreetMap Nominatim", content := m,
        tags := ["address", "error"], conf := some (1/10 : Rat) })

/-- The fallback of the RDAP org expression:
`rdap?.remarks?.[0]?.description?.[0]`. -/
def orgFallback (rdap : Json) : Option Json :=
  ((rdap.getField "remarks").bind (fun r => r.getIdx 0)).bind
    (fun r0 => (r0.getField "description").bind (fun d => d.getIdx 0))

/-- Knowledge-base search (Wikidata, name only): courtesy delay, search GET,
optional entity-detail GET; always emits a person entity. -/
def wikidataBlock (c : Ctx) (acc : Acc) : Except Acc Acc :=
  if c.ttype ≠ "name" then .ok acc
  else if acc.now ≥ c.deadline then .error acc
  else
    let acc := stepA acc ("Wikidata search: " ++ c.target)
    let acc := pushTr acc (.probe "wikidata" c.ld acc.now)
    let searchUrl := "https://www.wikidata.org/w/api.php?action=wbsearchentities&search=" ++
      encodeURIComponent c.target ++ "&language=en&format=json&limit=5"
    let acc := tick acc 250
    let acc := tick acc (c.env.fetchDur searchUrl)
    match c.env.fetchJson searchUrl with
    | .ok search =>
      let acc := pushEv acc {
        type := "json", title := "Wikidata search: " ++ c.target, source := "Wikidata",
        content := search.render, tags := ["name", "wikidata"], conf := some (1/2 : Rat) }
      let firstId := ((search.getField "search").bind (fun a => a.getIdx 0)).bind
        (fun e => e.getField "id")
      match firstId with
      | some idj =>
        if idj.truthy then
          let idStr := idj.toJsStr
          let entityUrl := "https://www.wikidata.org/wiki/Special:EntityData/" ++
            encodeURIComponent idStr ++ ".json"
          let acc := tick acc (c.env.fetchDur entityUrl)
          match c.env.fetchJson entityUrl with
          | .ok entity =>
            let acc := pushEv acc {
              type := "json", title := "Wikidata entity: " ++ idStr, source := "Wikidata",
              content := entity.render, tags := ["name", "wikidata", "entity"],
              conf := some (3/5 : Rat) }
            .ok (addEnt acc "person" c.target [("wikidataId", idStr)])
          | .error m =>
            let acc := pushEv acc {
              type := "text", title := "Wikidata lookup failed", source := "Wikidata",
              content := m, tags := ["name", "error"], conf := some (1/10 : Rat) }
            .ok (addEnt acc "person" c.target [])
        else .ok (addEnt acc "person" c.target [])
      | none => .ok (addEnt acc "person" c.target [])
    | .error m =>
      let acc := pushEv acc {
        type := "text", title := "Wikidata lookup failed", source := "Wikidata",
        content := m, tags := ["name", "error"], conf := some (1/10 : Rat) }
      .ok (addEnt acc "person" c.target [])

/-- RDAP (domain or ip): one GET; a truthy string `name` (or the first
remark description) becomes an org entity. -/
def rdapBlock (c : Ctx) (acc : Acc) : Except Acc Acc :=
  if c.ttype ≠ "domain" && c.ttype ≠ "ip" then .ok acc
  else if acc.now ≥ c.deadline then .error acc
  else
    let acc := stepA acc ("RDAP lookup: " ++ c.target)
    let acc := pushTr acc (.probe "rdap" c.ld acc.now)
    let rdapUrl :=
      if c.ttype = "domain" then "https://rdap.org/domain/" ++ encodeURIComponent c.target
      else "https://rdap.org/ip/" ++ encodeURIComponent c.target
    let acc := tick acc (c.env.fetchDur rdapUrl)
    match c.env.fetchJson rdapUrl with
    | .ok rdap =>
      let acc := pushEv acc {
        type := "json", title := "RDAP lookup for " ++ c.target, source := "RDAP",
        content := rdap.render, tags := ["rdap", "registration"], conf := some (9/10 : Rat) }
      let org : Option Json :=
        match rdap.getField "name" with
        | some n => if n.truthy then some n else orgFallback rdap
        | none => orgFallback rdap
      let acc :=
        match org with
        | some (.str s) => if jsTrim s ≠ "" then addEnt acc "org" (jsTrim s) [] else acc
        | _ => acc
      .ok acc
    | .error m =>
      .ok (pushEv acc {
        type := "text", title := "RDAP lookup failed for " ++ c.target, source := "RDAP",
        content := m, tags := ["rdap", "error"], conf := some (1/10 : Rat) })

/-- Unique cleaned `name_value` lines of a crt.sh response. -/
def crtNames (raw : Json) : List String :=
  match raw with
  | .arr rows =>
    dedupKeepFirst (rows.foldl (fun ns row =>
      let nv :=
        match row.getField "name_value" with
        | some v => match v with | .null => "" | _ => v.toJsStr
        | none => ""
      ns ++ ((splitOnCh '\n' nv).map (fun n => lowerStr (jsTrim n))).filter
        (fun clean => clean ≠ "" && containsCh clean '.')) [])
  | _ => []

/-- Certificate Transparency (crt.sh, domain only): one GET; up to 500
unique subdomains become domain entities; more than 50 adds 5 risk. -/
def crtBlock (c : Ctx) (acc : Acc) : Except Acc Acc :=
  if c.ttype ≠ "domain" then .ok acc
  else if acc.now ≥ c.deadline then .error acc
  else
    let acc := stepA acc ("Certificate Transparency (crt.sh): *." ++ c.target)
    let acc := pushTr acc (.probe "crt" c.ld acc.now)
    let url := "https://crt.sh/?q=%25." ++ encodeURIComponent c.target ++ "&output=json"
    let acc := tick acc (c.env.fetchDur url)
    match c.env.fetchJson url with
    | .ok raw =>
      let subdomains := (crtNames raw).take 500
      let acc := subdomains.foldl (fun a d => addEnt a "domain" d []) acc
      let acc := if subdomains.length > 50 then { acc with risk := acc.risk + 5 } else acc
      .ok (pushEv acc {
        type := "json",
        title := "Certificate Transparency (crt.sh) for *." ++ c.target,
        source := "crt.sh",
        content := (Json.obj [("count", .num (subdomains.length : Rat)),
          ("subdomains", .arr (subdomains.map Json.str))]).render,
        tags := ["ct", "subdomains"], conf := some (7/10 : Rat) })
    | .error m =>
      .ok (pushEv acc {
        type := "text", title := "crt.sh query failed for " ++ c.target, source := "crt.sh",
        content := m, tags := ["ct", "error"], conf := some (1/5 : Rat) })

/-- GitHub public profile (username only): one GET; truthy company/blog
fields become org/url entities. -/
def githubBlock (c : Ctx) (acc : Acc) : Except Acc Acc :=
  if c.ttype ≠ "username" then .ok acc
  else if acc.now ≥ c.deadline then .error acc
  else
    let acc := stepA acc ("GitHub user lookup: " ++ c.target)
    let acc := pushTr acc (.probe "github" c.ld acc.now)
    let url := "https://api.github.com/users/" ++ encodeURIComponent c.target
    let acc := tick acc (c.env.fetchDur url)
    match c.env.fetchJson url with
    | .ok user =>
      let acc := pushEv acc {
        type := "json", title := "GitHub user profile: " ++ c.target, source := "GitHub",
        content := user.render, tags := ["github", "profile"], conf := some (4/5 : Rat) }
      let acc :=
        if optTruthy (user.getField "company") then
          addEnt acc "org" (((user.getField "company").getD .null).toJsStr) []
        else acc
      let acc :=
        if optTruthy (user.getField "blog") then
          addEnt acc "url" (((user.getField "blog").getD .null).toJsStr) []
        else acc
      .ok acc
    | .error m =>
      .ok (pushEv acc {
        type := "text", title := "GitHub user lookup failed: " ++ c.target,
        source := "GitHub", content := m, tags := ["github", "error"], conf := some (1/5 : Rat) })

/-- Phone normalization (phone only, pure and local; the source has no
deadline check in front of this block). -/
def phoneBlock (c : Ctx) (acc : Acc) : Acc :=
  if c.ttype ≠ "phone" then acc
  else
    let acc := stepA acc ("Normalize phone: " ++ c.target)
    let acc := pushTr acc (.probe "phone-normalize" c.ld acc.now)
    let normalized := normalizePhone c.target
    let acc := pushEv acc {
      type := "json", title := "Phone normalization", source := "Parser",
      content := (Json.obj [("input", .str c.target), ("normalized", .str normalized)]).render,
      tags := ["phone"],
      conf := some (if normalized ≠ "" then (7/10 : Rat) else (3/10 : Rat)) }
    addEnt acc "phone" (if normalized = "" then c.target else normalized) []

/-- Email normalization (email only, pure and local; the source has no
deadline check in front of this block). -/
def emailBlock (c : Ctx) (acc : Acc) : Acc :=
  if c.ttype ≠ "email" then acc
  else
    let acc := stepA acc ("Normalize email: " ++ c.target)
    let acc := pushTr acc (.probe "email-normalize" c.ld acc.now)
    let email := lowerStr c.target
    let domain := ((splitOnCh '@' email).get? 1).getD ""
    let acc := pushEv acc {
      type := "json", title := "Email normalization", source := "Parser",
      content := (Json.obj [("email", .str email), ("domain", .str domain)]).render,
      tags := ["email"], conf := some (7/10 : Rat) }
    if domain ≠ "" then addEnt acc "domain" domain [] else acc

/-- The type-specific query templates of the primary web-search pass. -/
def typeQueries (c : Ctx) : List String :=
  if c.ttype = "name" then [quoted c.target, quoted c.target ++ " profile"]
  else if c.ttype = "username" then
    [quoted c.target, quoted c.target ++ " instagram", quoted c.target ++ " facebook"]
  else if c.ttype = "email" then [quoted c.target]
  else if c.ttype = "phone" then
    [quoted (if normalizePhone c.target = "" then c.target else normalizePhone c.target)]
  else if c.ttype = "domain" then ["site:" ++ c.target, quoted c.target ++ " contact"]
  else if c.ttype = "ip" then [quoted c.target]
  else []

/-- The primary web-search pass for the searchable target types. -/
def searchBlockMain (c : Ctx) (acc : Acc) : Acc :=
  if ["name", "username", "email", "phone", "domain", "ip"].contains c.ttype then
    maybeWebSearch c (typeQueries c) c.ttype acc
  else acc

/-- The lead candidates of one category: unique entity values of the given
type, excluding empties and the current invocation's own target
(case-insensitively), capped at `followMax`. -/
def leadsOf (ty target : String) (followMax : Nat) (entities : List EntityDraft) :
    List String :=
  ((uniqueByValue ((entities.filter (fun e => e.entityType = ty)).map (·.value))).filter
    (fun d => d ≠ "" && lowerStr d ≠ lowerStr target)).take followMax

/-- A recursive orchestrator invocation: ghost lead depth, ghost sub flag is
implicit in the trace, input, options, clock. -/
abbrev Recurse := Nat → Input → Opts → Nat → Option RunOut

/-- The step label of one lead follow. -/
def leadStep (ty d : String) : String :=
  if ty = "domain" then "Lead follow: domain enrichment for " ++ d
  else "Lead follow: username enrichment for " ++ d ++ " (public APIs only)"

/-- The per-lead loop: deadline-checked per lead, `seenFollow`-deduplicated,
recursing with depth `normal`, `skipWebSearch = true` and the caller's
shared `startedAt`/`budgetMs`. -/
def leadLoop (recurse : Recurse) (c : Ctx) (ty : String) :
    List String → List String → Acc → Option (Acc × List String)
  | [], seen, acc => some (acc, seen)
  | d :: rest, seen, acc =>
    if acc.now ≥ c.deadline then some (acc, seen)
    else
      let key := lowerStr (ty ++ ":" ++ d)
      if seen.contains key then leadLoop recurse c ty rest seen acc
      else
        let seen := seen ++ [key]
        let acc := stepA acc (leadStep ty d)
        let acc := pushTr acc
          (.subCall "lead" (c.ld + 1) c.target d ty true c.startedAt c.budgetMs acc.now)
        match recurse (c.ld + 1) { target := d, targetType := some ty }
            { c.opts with
              depth := some "normal", skipWebSearch := true,
              timeBudgetMs := some c.budgetMs, startedAtMs := some c.startedAt }
            acc.now with
        | none => none
        | some out => leadLoop recurse c ty rest seen (mergeSub acc out)

/-- The lead-following block: up to `followMax` domains, then up to
`followMax` usernames (computed after the domain follows, as in the source). -/
def leadBlock (recurse : Recurse) (c : Ctx) (acc : Acc) : Option Acc :=
  if acc.now ≥ c.deadline then some acc
  else
    let followMax := if c.depth = "thorough" then 4 else 1
    match leadLoop recurse c "domain"
        (leadsOf "domain" c.target followMax acc.entities) [] acc with
    | none => none
    | some p =>
      match leadLoop recurse c "username"
          (leadsOf "username" c.target followMax p.1.entities) p.2 p.1 with
      | none => none
      | some q => some q.1

/-- The per-indicator sub-collection loop of the case branch, stopping with
a budget-notice step once the deadline passes. -/
def caseLoop (recurse : Recurse) (c : Ctx) :
    List Indicator → Acc → Option Acc
  | [], acc => some acc
  | ind :: rest, acc =>
    if acc.now ≥ c.deadline then
      some (stepA acc ("Time budget reached; stopping early with " ++
        toString acc.evidence.length ++ " evidence items."))
    else
      let acc := stepA acc ("Collecting (" ++ ind.type ++ "): " ++ ind.value)
      let acc := pushTr acc (.subCall "case" c.ld c.target ind.value ind.type
        c.opts.skipWebSearch c.startedAt c.budgetMs acc.now)
      match recurse c.ld { target := ind.value, targetType := some ind.type }
          { c.opts with
            depth := some c.depth, timeBudgetMs := some c.budgetMs,
            startedAtMs := some c.startedAt }
          acc.now with
      | none => none
      | some out => caseLoop recurse c rest (mergeSub acc out)

/-- The queries of the case branch's single web-search pass: up to 2 (4 when
thorough) of the highest-signal indicators. -/
def caseQueries (inds : List Indicator) (dpt : String) : List String :=
  ((inds.filter (fun i => ["name", "username", "email", "domain"].contains i.type)).take
    (if dpt = "thorough" then 4 else 2)).filterMap (fun i =>
      if i.type = "name" then some (quoted i.value)
      else if i.type = "email" then some (quoted i.value)
      else if i.type = "username" then some (quoted i.value)
      else if i.type = "domain" then some ("site:" ++ i.value)
      else none)

/-- Build the returned `CollectionResult`; the final path applies the entity
de-duplication, a deadline early return does not. -/
def mkOut (acc : Acc) (final : Bool) : RunOut :=
  { res := { evidence := acc.evidence,
             entities := if final then dedupEntities acc.entities else acc.entities,
             riskDelta := acc.risk,
             confidence := computeConfidence acc.evidence,
             viaFinal := final },
    endNow := acc.now, trace := acc.trace }

/-- The case branch: extract indicators from the raw target text, emit the
intake and indicator evidence, run bounded sub-collections, one search pass,
then return with entity de-duplication. -/
def caseBranch (recurse : Recurse) (c : Ctx) (rawTarget : String) (acc : Acc) :
    Option RunOut :=
  let text := jsTrim rawTarget
  let indicators := extractIndicators c.env.re text
  let acc := stepA acc
    ("Foundation parsing: extracting indicators (" ++ toString indicators.length ++ ")")
  let acc := pushEv acc {
    type := "json", title := "Case description (input)", source := "Case Intake",
    content := (Json.obj [("description", .str text)]).render,
    tags := ["case", "intake"], conf := some (9/10 : Rat) }
  let acc := pushEv acc {
    type := "json", title := "Extracted indicators", source := "Parser",
    content := (Json.arr (indicators.map (fun i =>
      Json.obj [("type", .str i.type), ("value", .str i.value)]))).render,
    tags := ["case", "indicators"], conf := some (7/10 : Rat) }
  match caseLoop recurse c (indicators.take (if c.depth = "thorough" then 20 else 8)) acc with
  | none => none
  | some acc =>
    let acc := maybeWebSearch c (caseQueries indicators c.depth) "case primary leads" acc
    some (mkOut acc true)

/-- The non-case path: DNS, geocode, knowledge-base, primary web search,
lead-following, phone normalization, RDAP, Certificate Transparency, GitHub
and email normalization, in the source's order. -/
def nonCaseChain (recurse : Recurse) (c : Ctx) (acc : Acc) : Option (Except Acc Acc) :=
  match dnsBlock c acc with
  | .error a => some (.error a)
  | .ok a =>
    match geoBlock c a with
    | .error a => some (.error a)
    | .ok a =>
      match wikidataBlock c a with
      | .error a => some (.error a)
      | .ok a =>
        let a := searchBlockMain c a
        match leadBlock recurse c a with
        | none => none
        | some a =>
          let a := phoneBlock c a
          match rdapBlock c a with
          | .error a => some (.error a)
          | .ok a =>
            match crtBlock c a with
            | .error a => some (.error a)
            | .ok a =>
              match githubBlock c a with
              | .error a => some (.error a)
              | .ok a => some (.ok (emailBlock c a))

/-- `runSafeOsintCollection`.  Fuel bounds the recursion depth of the model
(`none` models a run that has not finished within `fuel` nested invocations;
the source's recursion is bounded only by its deadline checks).  `ld` is the
ghost lead-following depth used by the trace.  `now0` is the clock at entry
(`Date.now()`). -/
def runSafeOsintCollection (env : Env) :
    Nat → Nat → Input → Opts → Nat → Option RunOut
  | 0, _, _, _, _ => none
  | fuel + 1, ld, input, opts, now0 =>
    let target := normalizeTarget input.target
    let ttype := input.targetType.getD (guessTargetType target)
    let depth := opts.depth.getD "normal"
    let startedAt := opts.startedAtMs.getD now0
    let budgetMs := opts.timeBudgetMs.getD (if depth = "thorough" then 300000 else 90000)
    let c : Ctx := { env := env, target := target, ttype := ttype, depth := depth,
                     startedAt := startedAt, budgetMs := budgetMs,
                     skipWS := opts.skipWebSearch, ld := ld, opts := opts }
    let acc0 : Acc := { evidence := [], entities := [], risk := 0, now := now0, trace := [] }
    if ttype = "case" then
      caseBranch (runSafeOsintCollection env fuel) c input.target acc0
    else
      match nonCaseChain (runSafeOsintCollection env fuel) c acc0 with
      | none => none
      | some (.error a) => some (mkOut a false)
      | some (.ok a) => some (mkOut a true)

/-! Concrete environments used to evaluate the model on closed inputs. -/

/-- A regex engine that finds nothing. -/
def reNone : ReEngine :=
  { emails := fun _ => [], ips := fun _ => [], domains := fun _ => [],
    phones := fun _ => [] }

/-- A world in which every external source is unreachable, no search
provider is configured and every call returns instantly. -/
def envBase : Env :=
  { re := reNone,
    searchProvider := "",
    webSearch := fun _ _ _ => .error "no provider",
    searchDur := fun _ => 0,
    dns4 := fun _ => .error (),
    dns6 := fun _ => .error (),
    dnsNs := fun _ => .error (),
    dnsMx := fun _ => .error (),
    dnsDur := fun _ => 0,
    fetchJson := fun _ => .error "unreachable",
    fetchDur := fun _ => 0,
    parseUrl := fun _ => none }

/-- A world in which the resolver answers the A query for `a.com` with a
duplicated address and that single lookup consumes one millisecond. -/
def envDupIps : Env :=
  { envBase with
    dns4 := fun t => if t = "a.com" then .ok ["1.2.3.4", "1.2.3.4"] else .error (),
    dnsDur := fun k => if k = "A:a.com" then 1 else 0 }

/-- A world with a two-link nameserver chain: the NS of `a.com` is `b.com`
and the NS of `b.com` is `A.COM` (the top-level value, upper-cased). -/
def envNsChain : Env :=
  { envBase with
    dnsNs := fun t =>
      if t = "a.com" then .ok ["b.com"]
      else if t = "b.com" then .ok ["A.COM"]
      else .error () }

/-! Properties of the first-seen-wins de-duplication. -/

theorem dedupByKey_go_sublist {α : Type} (key : α → String) :
    ∀ (l : List α) (seen : List String), (dedupByKey.go key seen l).Sublist l := by
  intro l
  induction l with
  | nil => intro seen; simp [dedupByKey.go]
  | cons x xs ih =>
    intro seen
    simp only [dedupByKey.go]
    split
    · exact (ih seen).trans (List.sublist_cons_self x xs)
    · exact (ih (key x :: seen)).cons₂ x

theorem dedupByKey_sublist {α : Type} (key : α → String) (l : List α) :
    (dedupByKey key l).Sublist l :=
  dedupByKey_go_sublist key l []

theorem dedupByKey_go_mem_not_seen {α : Type} (key : α → String) :
    ∀ (l : List α) (seen : List String) (x : α),
      x ∈ dedupByKey.go key seen l → key x ∉ seen := by
  intro l
  induction l with
  | nil => intro seen x hx; simp [dedupByKey.go] at hx
  | cons y ys ih =>
    intro seen x hx
    simp only [dedupByKey.go] at hx
    split at hx
    · exact ih seen x hx
    · rcases List.mem_cons.mp hx with h | h
      · subst h
        rename_i hns
        simpa using hns
      · intro hmem
        exact ih (key y :: seen) x h (List.mem_cons_of_mem _ hmem)

theorem dedupByKey_go_find {α : Type} (key : α → String) :
    ∀ (l : List α) (seen : List String) (x : α),
      x ∈ dedupByKey.go key seen l →
      l.find? (fun y => key y == key x) = some x := by
  intro l
  induction l with
  | nil => intro seen x hx; simp [dedupByKey.go] at hx
  | cons y ys ih =>
    intro seen x hx
    simp only [dedupByKey.go] at hx
    split at hx
    · rename_i hseen
      have hkx : key x ∉ seen := dedupByKey_go_mem_not_seen key ys seen x hx
      have hne : key y ≠ key x := by
        intro he
        rw [he] at hseen
        exact hkx (by simpa using hseen)
      rw [List.find?_cons_of_neg _ (by simp [hne])]
      exact ih seen x hx
    · rcases List.mem_cons.mp hx with h | h
      · subst h
        exact List.find?_cons_of_pos _ (by simp)
      · have hkx : key x ∉ key y :: seen :=
          dedupByKey_go_mem_not_seen key ys (key y :: seen) x h
        have hne : key y ≠ key x := fun he => hkx (by simp [he])
        rw [List.find?_cons_of_neg _ (by simp [hne])]
        exact ih (key y :: seen) x h

theorem dedupByKey_find {α : Type} (key : α → String) (l : List α) (x : α)
    (hx : x ∈ dedupByKey key l) :
    l.find? (fun y => key y == key x) = some x :=
  dedupByKey_go_find key l [] x hx

theorem dedupByKey_go_keys_nodup {α : Type} (key : α → String) :
    ∀ (l : List α) (seen : List String),
      ((dedupByKey.go key seen l).map key).Nodup := by
  intro l
  induction l with
  | nil => intro seen; simp [dedupByKey.go]
  | cons y ys ih =>
    intro seen
    simp only [dedupByKey.go]
    split
    · exact ih seen
    · simp only [List.map_cons, List.nodup_cons]
      refine ⟨?_, ih (key y :: seen)⟩
      intro hmem
      rcases List.mem_map.mp hmem with ⟨z, hz, hkz⟩
      exact dedupByKey_go_mem_not_seen key ys (key y :: seen) z hz (by simp [hkz])

theorem dedupByKey_keys_nodup {α : Type} (key : α → String) (l : List α) :
    ((dedupByKey key l).map key).Nodup :=
  dedupByKey_go_keys_nodup key l []

/-! Claim C5 — the confidence scorer. -/

/-- An evidence draft with only a confidence, for stating scorer facts. -/
def evOfConf (c : Option Rat) : EvidenceDraft :=
  { type := "json", title := "t", source := "s", content := "", tags := [], conf := c }

/-- Unfolded form of the scorer. -/
theorem computeConfidence_def (ev : List EvidenceDraft) :
    computeConfidence ev =
      if (confVals ev).length = 0 then 0
      else max 0 (min 1 (round3 ((confVals ev).sum / ((confVals ev).length : Rat)))) :=
  rfl

/-- C5: `computeConfidence` returns 0 when no present, numeric, in-range
confidence exists; otherwise the clamped, 3-decimal-rounded mean of exactly
the valid values; the example `[0.9, 0.5, missing]` yields 0.7; and the
result always lies in the unit interval. -/
theorem c5_confidence :
    computeConfidence [evOfConf (some (9/10)), evOfConf (some (1/2)), evOfConf none] =
      (7/10 : Rat) ∧
    (∀ ev : List EvidenceDraft,
      0 ≤ computeConfidence ev ∧ computeConfidence ev ≤ 1) ∧
    (∀ ev : List EvidenceDraft, confVals ev = [] → computeConfidence ev = 0) ∧
    (∀ ev : List EvidenceDraft, confVals ev ≠ [] →
      computeConfidence ev =
        max 0 (min 1 (round3 ((confVals ev).sum / ((confVals ev).length : Rat))))) := by
  refine ⟨by decide, ?_, ?_, ?_⟩
  · intro ev
    rw [computeConfidence_def]
    split
    · norm_num
    · constructor
      · exact le_max_left 0 _
      · exact max_le (by norm_num) (min_le_left 1 _)
  · intro ev h
    rw [computeConfidence_def]
    simp [h]
  · intro ev h
    rw [computeConfidence_def]
    have : (confVals ev).length ≠ 0 := by
      simpa [List.length_eq_zero] using h
    simp [this]

/-- Witness for C5 at concrete inputs. -/
theorem c5_confidence_witness :
    (0 ≤ computeConfidence [evOfConf (some (3/10))] ∧
      computeConfidence [evOfConf (some (3/10))] ≤ 1) ∧
    computeConfidence [evOfConf none] = 0 ∧
    computeConfidence [evOfConf (some (3/10))] =
      max 0 (min 1 (round3 ((confVals [evOfConf (some (3/10))]).sum /
        ((confVals [evOfConf (some (3/10))]).length : Rat)))) :=
  ⟨c5_confidence.2.1 [evOfConf (some (3/10))],
   c5_confidence.2.2.1 [evOfConf none] (by decide),
   c5_confidence.2.2.2 [evOfConf (some (3/10))] (by decide)⟩

/-! Claim C6 — bounds and shape of `extractIndicators`. -/

theorem indAdd_spec (out : List Indicator) (ty v : String) :
    ∃ Δ, indAdd out ty v = out ++ Δ ∧ Δ.length ≤ 1 ∧
      ∀ i ∈ Δ, i.type = ty ∧ i.value = jsTrim v := by
  simp only [indAdd]
  split
  · exact ⟨[], by simp, by simp, by simp⟩
  · exact ⟨[⟨ty, jsTrim v⟩], rfl, by simp, by simp⟩

theorem foldl_indAdd_spec (ty : String) :
    ∀ (l : List String) (out : List Indicator),
      ∃ Δ, l.foldl (fun o v => indAdd o ty v) out = out ++ Δ ∧
        Δ.length ≤ l.length ∧ ∀ i ∈ Δ, i.type = ty ∧ ∃ v ∈ l, i.value = jsTrim v := by
  intro l
  induction l with
  | nil => intro out; exact ⟨[], by simp, by simp, by simp⟩
  | cons v vs ih =>
    intro out
    obtain ⟨Δ0, h0, h0L, h0P⟩ := indAdd_spec out ty v
    obtain ⟨Δ1, h1, h1L, h1P⟩ := ih (indAdd out ty v)
    refine ⟨Δ0 ++ Δ1, ?_, ?_, ?_⟩
    · simp only [List.foldl_cons]
      rw [h1, h0, List.append_assoc]
    · simp only [List.length_append, List.length_cons]
      omega
    · intro i hi
      rcases List.mem_append.mp hi with h | h
      · obtain ⟨hT, hV⟩ := h0P i h
        exact ⟨hT, v, List.mem_cons_self v vs, hV⟩
      · obtain ⟨hT, w, hw, hV⟩ := h1P i h
        exact ⟨hT, w, List.mem_cons_of_mem _ hw, hV⟩

theorem addressStep_spec (lines : List String) (out : List Indicator) :
    ∃ Δ, addressStep lines out = out ++ Δ ∧ Δ.length ≤ 1 ∧
      ∀ i ∈ Δ, i.type = "address" := by
  unfold addressStep
  cases hfa : lines.find? (fun l => labelTest "address" l) with
  | none =>
    cases hfb : lines.find? (fun line => !badLabel line && addressCond line) with
    | none => exact ⟨[], by simp, by simp, by simp⟩
    | some line =>
      obtain ⟨Δ, h, hL, hP⟩ := indAdd_spec out "address" line
      exact ⟨Δ, h, hL, fun i hi => (hP i hi).1⟩
  | some l =>
    cases hlr : labelRest "address" l with
    | none => simp only [hlr]; exact ⟨[], by simp, by simp, by simp⟩
    | some v =>
      simp only [hlr]
      split
      · obtain ⟨Δ, h, hL, hP⟩ := indAdd_spec out "address" (jsTrim v)
        exact ⟨Δ, h, hL, fun i hi => (hP i hi).1⟩
      · exact ⟨[], by simp, by simp, by simp⟩

theorem nameStep_spec (lines : List String) (out : List Indicator) :
    ∃ Δ, nameStep lines out = out ++ Δ ∧ Δ.length ≤ 1 ∧
      ∀ i ∈ Δ, i.type = "name" := by
  unfold nameStep
  cases hnl : nameLineOf lines with
  | none => simp only [hnl]; exact ⟨[], by simp, by simp, by simp⟩
  | some v =>
    simp only [hnl]
    split
    · obtain ⟨Δ, h, hL, hP⟩ := indAdd_spec out "name" v
      exact ⟨Δ, h, hL, fun i hi => (hP i hi).1⟩
    · exact ⟨[], by simp, by simp, by simp⟩

theorem foldl_mem_mono {α β : Type} (f : List α → β → List α)
    (hf : ∀ ds e, ∀ x ∈ ds, x ∈ f ds e) :
    ∀ (l : List β) (ds : List α) (x : α), x ∈ ds → x ∈ l.foldl f ds := by
  intro l
  induction l with
  | nil => intro ds x hx; simpa using hx
  | cons e es ih =>
    intro ds x hx
    simp only [List.foldl_cons]
    exact ih (f ds e) x (hf ds e x hx)

theorem foldl_mem_add {α β : Type} (f : List α → β → List α)
    (hmono : ∀ ds e, ∀ x ∈ ds, x ∈ f ds e) :
    ∀ (l : List β) (ds : List α) (e : β) (x : α),
      e ∈ l → (∀ ds', x ∈ f ds' e) → x ∈ l.foldl f ds := by
  intro l
  induction l with
  | nil => intro ds e x he _; simp at he
  | cons b bs ih =>
    intro ds e x he hadd
    simp only [List.foldl_cons]
    rcases List.mem_cons.mp he with h | h
    · exact foldl_mem_mono f hmono bs (f ds b) x (h ▸ hadd ds)
    · exact ih (f ds b) e x h hadd

/-- Every extracted email's domain part enters the domain pool (before the
cap of 3 is applied). -/
theorem mem_domainPool_of_email (re : ReEngine) (text : String) (e d : String)
    (he : e ∈ emailsOf re text) (hd : (splitOnCh '@' e).get? 1 = some d)
    (hne : d ≠ "") : lowerStr d ∈ domainPool re text := by
  unfold domainPool
  set f := fun (ds : List String) (e : String) =>
    match (splitOnCh '@' e).get? 1 with
    | some d =>
      if d ≠ "" then (if ds.contains (lowerStr d) then ds else ds ++ [lowerStr d]) else ds
    | none => ds with hf
  have hmono : ∀ ds e, ∀ x ∈ ds, x ∈ f ds e := by
    intro ds e x hx
    simp only [hf]
    rcases (splitOnCh '@' e).get? 1 with _ | dd
    · exact hx
    · simp only
      split
      · split
        · exact hx
        · exact List.mem_append_left _ hx
      · exact hx
  have hadd : ∀ ds', lowerStr d ∈ f ds' e := by
    intro ds'
    simp only [hf, hd]
    rw [if_pos hne]
    split
    · rename_i hc
      exact List.mem_of_elem_eq_true hc
    · exact List.mem_append_right _ (List.mem_singleton.mpr rfl)
  exact foldl_mem_add f hmono (emailsOf re text) _ e (lowerStr d) he hadd

/-- Structural decomposition of `extractIndicators`: before the final
de-duplication the output is the concatenation of the six typed extraction
steps, each capped. -/
theorem extractIndicators_decomp (re : ReEngine) (text : String) :
    ∃ eΔ iΔ dΔ pΔ aΔ nΔ : List Indicator,
      extractIndicators re text =
        dedupByKey (fun i => lowerStr (i.type ++ ":" ++ i.value))
          (eΔ ++ iΔ ++ dΔ ++ pΔ ++ aΔ ++ nΔ) ∧
      (eΔ.length ≤ 3 ∧ ∀ i ∈ eΔ, i.type = "email") ∧
      (iΔ.length ≤ 3 ∧ ∀ i ∈ iΔ, i.type = "ip") ∧
      (dΔ.length ≤ 3 ∧ ∀ i ∈ dΔ, i.type = "domain" ∧
        ∃ v ∈ (domainPool re text).take 3, i.value = jsTrim v) ∧
      (pΔ.length ≤ 2 ∧ ∀ i ∈ pΔ, i.type = "phone") ∧
      (aΔ.length ≤ 1 ∧ ∀ i ∈ aΔ, i.type = "address") ∧
      (nΔ.length ≤ 1 ∧ ∀ i ∈ nΔ, i.type = "name") := by
  obtain ⟨eΔ, heEq, heL, heP⟩ := foldl_indAdd_spec "email" ((emailsOf re text).take 3) []
  obtain ⟨iΔ, hiEq, hiL, hiP⟩ :=
    foldl_indAdd_spec "ip" ((dedupKeepFirst (re.ips text)).take 3) eΔ
  obtain ⟨dΔ, hdEq, hdL, hdP⟩ :=
    foldl_indAdd_spec "domain" ((domainPool re text).take 3) (eΔ ++ iΔ)
  obtain ⟨pΔ, hpEq, hpL, hpP⟩ :=
    foldl_indAdd_spec "phone" (phonesOf re text) (eΔ ++ iΔ ++ dΔ)
  obtain ⟨aΔ, haEq, haL, haP⟩ :=
    addressStep_spec (linesOf text) (eΔ ++ iΔ ++ dΔ ++ pΔ)
  obtain ⟨nΔ, hnEq, hnL, hnP⟩ :=
    nameStep_spec (linesOf text) (eΔ ++ iΔ ++ dΔ ++ pΔ ++ aΔ)
  refine ⟨eΔ, iΔ, dΔ, pΔ, aΔ, nΔ, ?_,
    ⟨heL.trans (List.length_take_le 3 _), fun i hi => (heP i hi).1⟩,
    ⟨hiL.trans (List.length_take_le 3 _), fun i hi => (hiP i hi).1⟩,
    ⟨hdL.trans (List.length_take_le 3 _),
      fun i hi => ⟨(hdP i hi).1, (hdP i hi).2⟩⟩,
    ⟨hpL.trans (List.length_take_le 2 _), fun i hi => (hpP i hi).1⟩,
    ⟨haL, haP⟩, ⟨hnL, hnP⟩⟩
  simp only [extractIndicators]
  rw [heEq]
  simp only [List.nil_append]
  rw [hiEq]
  rw [show eΔ ++ iΔ ++ dΔ = (eΔ ++ iΔ) ++ dΔ by simp [List.append_assoc]] at hpEq
  rw [show eΔ ++ iΔ ++ dΔ ++ pΔ = ((eΔ ++ iΔ) ++ dΔ) ++ pΔ by simp [List.append_assoc]] at haEq
  rw [show eΔ ++ iΔ ++ dΔ ++ pΔ ++ aΔ = (((eΔ ++ iΔ) ++ dΔ) ++ pΔ) ++ aΔ by
    simp [List.append_assoc]] at hnEq
  rw [hdEq, hpEq, haEq, hnEq]

/-- Typed components contribute nothing to a count over a different type. -/
theorem countP_type_zero (Δ : List Indicator) (ty t : String)
    (hP : ∀ i ∈ Δ, i.type = ty) (hne : ty ≠ t) :
    Δ.countP (fun i => i.type == t) = 0 := by
  rw [List.countP_eq_zero]
  intro a ha
  simp [hP a ha, hne]

/-- C6: `extractIndicators` yields at most 3 emails, 3 IPs, 3 domains, 2
phones, 1 address and 1 name; its output is de-duplicated case-insensitively
by `type:value`; domain indicators come from the email-augmented domain pool
capped at 3; and no indicator has type username or case. -/
theorem c6_extract (re : ReEngine) (text : String) :
    ((extractIndicators re text).countP (fun i => i.type == "email") ≤ 3) ∧
    ((extractIndicators re text).countP (fun i => i.type == "ip") ≤ 3) ∧
    ((extractIndicators re text).countP (fun i => i.type == "domain") ≤ 3) ∧
    ((extractIndicators re text).countP (fun i => i.type == "phone") ≤ 2) ∧
    ((extractIndicators re text).countP (fun i => i.type == "address") ≤ 1) ∧
    ((extractIndicators re text).countP (fun i => i.type == "name") ≤ 1) ∧
    ((extractIndicators re text).map (fun i => lowerStr (i.type ++ ":" ++ i.value))).Nodup ∧
    (∀ i ∈ extractIndicators re text, i.type ≠ "username" ∧ i.type ≠ "case") ∧
    (∀ e ∈ emailsOf re text, ∀ d, (splitOnCh '@' e).get? 1 = some d → d ≠ "" →
      lowerStr d ∈ domainPool re text) ∧
    (∀ i ∈ extractIndicators re text, i.type = "domain" →
      ∃ v ∈ (domainPool re text).take 3, i.value = jsTrim v) := by
  obtain ⟨eΔ, iΔ, dΔ, pΔ, aΔ, nΔ, hEq, ⟨heL, heP⟩, ⟨hiL, hiP⟩, ⟨hdL, hdP⟩,
    ⟨hpL, hpP⟩, ⟨haL, haP⟩, ⟨hnL, hnP⟩⟩ := extractIndicators_decomp re text
  have hsubl : (extractIndicators re text).Sublist
      (eΔ ++ iΔ ++ dΔ ++ pΔ ++ aΔ ++ nΔ) := by
    rw [hEq]; exact dedupByKey_sublist _ _
  have hdP1 : ∀ i ∈ dΔ, i.type = "domain" := fun i hi => (hdP i hi).1
  have hcnt : ∀ (t : String) (cap : Nat),
      (eΔ ++ iΔ ++ dΔ ++ pΔ ++ aΔ ++ nΔ).countP (fun i => i.type == t) ≤ cap →
      (extractIndicators re text).countP (fun i => i.type == t) ≤ cap :=
    fun t cap h => le_trans (hsubl.countP_le _) h
  refine ⟨?_, ?_, ?_, ?_, ?_, ?_, ?_, ?_, ?_, ?_⟩
  · refine hcnt "email" 3 ?_
    simp only [List.countP_append]
    rw [countP_type_zero iΔ "ip" "email" hiP (by decide),
      countP_type_zero dΔ "domain" "email" hdP1 (by decide),
      countP_type_zero pΔ "phone" "email" hpP (by decide),
      countP_type_zero aΔ "address" "email" haP (by decide),
      countP_type_zero nΔ "name" "email" hnP (by decide)]
    have : List.countP (fun i : Indicator => i.type == "email") eΔ ≤ eΔ.length :=
      List.countP_le_length ..
    omega
  · refine hcnt "ip" 3 ?_
    simp only [List.countP_append]
    rw [countP_type_zero eΔ "email" "ip" heP (by decide),
      countP_type_zero dΔ "domain" "ip" hdP1 (by decide),
      countP_type_zero pΔ "phone" "ip" hpP (by decide),
      countP_type_zero aΔ "address" "ip" haP (by decide),
      countP_type_zero nΔ "name" "ip" hnP (by decide)]
    have : List.countP (fun i : Indicator => i.type == "ip") iΔ ≤ iΔ.length :=
      List.countP_le_length ..
    omega
  · refine hcnt "domain" 3 ?_
    simp only [List.countP_append]
    rw [countP_type_zero eΔ "email" "domain" heP (by decide),
      countP_type_zero iΔ "ip" "domain" hiP (by decide),
      countP_type_zero pΔ "phone" "domain" hpP (by decide),
      countP_type_zero aΔ "address" "domain" haP (by decide),
      countP_type_zero nΔ "name" "domain" hnP (by decide)]
    have : List.countP (fun i : Indicator => i.type == "domain") dΔ ≤ dΔ.length :=
      List.countP_le_length ..
    omega
  · refine hcnt "phone" 2 ?_
    simp only [List.countP_append]
    rw [countP_type_zero eΔ "email" "phone" heP (by decide),
      countP_type_zero iΔ "ip" "phone" hiP (by decide),
      countP_type_zero dΔ "domain" "phone" hdP1 (by decide),
      countP_type_zero aΔ "address" "phone" haP (by decide),
      countP_type_zero nΔ "name" "phone" hnP (by decide)]
    have : List.countP (fun i : Indicator => i.type == "phone") pΔ ≤ pΔ.length :=
      List.countP_le_length ..
    omega
  · refine hcnt "address" 1 ?_
    simp only [List.countP_append]
    rw [countP_type_zero eΔ "email" "address" heP (by decide),
      countP_type_zero iΔ "ip" "address" hiP (by decide),
      countP_type_zero dΔ "domain" "address" hdP1 (by decide),
      countP_type_zero pΔ "phone" "address" hpP (by decide),
      countP_type_zero nΔ "name" "address" hnP (by decide)]
    have : List.countP (fun i : Indicator => i.type == "address") aΔ ≤ aΔ.length :=
      List.countP_le_length ..
    omega
  · refine hcnt "name" 1 ?_
    simp only [List.countP_append]
    rw [countP_type_zero eΔ "email" "name" heP (by decide),
      countP_type_zero iΔ "ip" "name" hiP (by decide),
      countP_type_zero dΔ "domain" "name" hdP1 (by decide),
      countP_type_zero pΔ "phone" "name" hpP (by decide),
      countP_type_zero aΔ "address" "name" haP (by decide)]
    have : List.countP (fun i : Indicator => i.type == "name") nΔ ≤ nΔ.length :=
      List.countP_le_length ..
    omega
  · rw [hEq]
    exact dedupByKey_keys_nodup _ _
  · intro i hi
    have hi6 := hsubl.subset hi
    have : i.type = "email" ∨ i.type = "ip" ∨ i.type = "domain" ∨ i.type = "phone" ∨
        i.type = "address" ∨ i.type = "name" := by
      simp only [List.mem_append] at hi6
      rcases hi6 with ((((h | h) | h) | h) | h) | h
      · exact Or.inl (heP i h)
      · exact Or.inr (Or.inl (hiP i h))
      · exact Or.inr (Or.inr (Or.inl (hdP1 i h)))
      · exact Or.inr (Or.inr (Or.inr (Or.inl (hpP i h))))
      · exact Or.inr (Or.inr (Or.inr (Or.inr (Or.inl (haP i h)))))
      · exact Or.inr (Or.inr (Or.inr (Or.inr (Or.inr (hnP i h)))))
    rcases this with h | h | h | h | h | h <;> rw [h] <;> exact ⟨by decide, by decide⟩
  · exact fun e he d hd hne => mem_domainPool_of_email re text e d he hd hne
  · intro i hi hdom
    have hi6 := hsubl.subset hi
    simp only [List.mem_append] at hi6
    rcases hi6 with ((((h | h) | h) | h) | h) | h
    · exact absurd (heP i h) (by rw [hdom]; decide)
    · exact absurd (hiP i h) (by rw [hdom]; decide)
    · exact (hdP i h).2
    · exact absurd (hpP i h) (by rw [hdom]; decide)
    · exact absurd (haP i h) (by rw [hdom]; decide)
    · exact absurd (hnP i h) (by rw [hdom]; decide)

/-! Properties of `uniqueByValue` and the lead-candidate selection. -/

theorem uniqueByValue_go_not_seen :
    ∀ (l : List String) (seen : List String) (x : String),
      x ∈ uniqueByValue.go seen l → lowerStr x ∉ seen := by
  intro l
  induction l with
  | nil => intro seen x hx; simp [uniqueByValue.go] at hx
  | cons v vs ih =>
    intro seen x hx
    simp only [uniqueByValue.go] at hx
    split at hx
    · exact ih seen x hx
    · rename_i hguard
      rcases List.mem_cons.mp hx with h | h
      · subst h
        intro hmem
        exact hguard (by simp [hmem])
      · intro hmem
        exact ih _ x h (List.mem_cons_of_mem _ hmem)

theorem uniqueByValue_go_nodup_lower :
    ∀ (l : List String) (seen : List String),
      ((uniqueByValue.go seen l).map (fun v => lowerStr v)).Nodup := by
  intro l
  induction l with
  | nil => intro seen; simp [uniqueByValue.go]
  | cons v vs ih =>
    intro seen
    simp only [uniqueByValue.go]
    split
    · exact ih seen
    · simp only [List.map_cons, List.nodup_cons]
      refine ⟨?_, ih _⟩
      intro hmem
      rcases List.mem_map.mp hmem with ⟨z, hz, hkz⟩
      exact uniqueByValue_go_not_seen vs _ z hz (by simp [hkz])

theorem uniqueByValue_nodup_lower (l : List String) :
    ((uniqueByValue l).map (fun v => lowerStr v)).Nodup :=
  uniqueByValue_go_nodup_lower l []

/-- The lead candidates are capped at `followMax`. -/
theorem leadsOf_length (ty target : String) (followMax : Nat)
    (entities : List EntityDraft) :
    (leadsOf ty target followMax entities).length ≤ followMax :=
  List.length_take_le followMax _

/-- No lead candidate equals the invocation's own target, case-insensitively. -/
theorem leadsOf_ne_target (ty target : String) (followMax : Nat)
    (entities : List EntityDraft) :
    ∀ d ∈ leadsOf ty target followMax entities,
      d ≠ "" ∧ lowerStr d ≠ lowerStr target := by
  intro d hd
  have hd' := List.mem_of_mem_take hd
  have := List.mem_filter.mp hd'
  simpa using this.2

/-- The lead candidates are pairwise distinct case-insensitively. -/
theorem leadsOf_nodup_lower (ty target : String) (followMax : Nat)
    (entities : List EntityDraft) :
    ((leadsOf ty target followMax entities).map (fun v => lowerStr v)).Nodup := by
  have hbase := uniqueByValue_nodup_lower
    ((entities.filter (fun e => e.entityType = ty)).map (·.value))
  refine List.Nodup.sublist (List.Sublist.map _ ?_) hbase
  exact (List.take_sublist _ _).trans (List.filter_sublist _)

/-! The master run invariant: per-item evidence facts and per-event trace
facts, preserved by every block of the orchestrator and transported through
recursive sub-invocations. -/

/-- The deadline-gated probe blocks (phone/email normalization are not
gated in the source). -/
def gatedProbes : List String := ["dns", "geocode", "wikidata", "rdap", "crt", "github"]

/-- Per-evidence-item facts: a numeric confidence in `[0.05, 0.9]` is always
present; error-tagged items are text with confidence 0.1 or 0.2; and a run
with web search suppressed produces no web-search-tagged evidence. -/
def EvGood (skip : Bool) (e : EvidenceDraft) : Prop :=
  (∃ cv, e.conf = some cv ∧ (1 : Rat)/20 ≤ cv ∧ cv ≤ (9 : Rat)/10) ∧
  ("error" ∈ e.tags → e.type = "text" ∧
    (e.conf = some ((1 : Rat)/10) ∨ e.conf = some ((1 : Rat)/5))) ∧
  (skip = true → "web-search" ∉ e.tags)

/-- Per-trace-event facts relative to the shared deadline `dl = s + b`, the
ghost lead depth `ld` and the `skipWebSearch` flag of the invocation. -/
def TGood (dl s b ld : Nat) (skip : Bool) : TraceEv → Prop
  | .subCall k _cld ptgt tgt _tt sw sa bu t =>
      t < dl ∧ sa = s ∧ bu = b ∧
        (k = "lead" → sw = true ∧ lowerStr tgt ≠ lowerStr ptgt)
  | .probe n _ t => n ∈ gatedProbes → t < dl
  | .query _ l t => t < dl ∧ l = ld ∧ skip = false
  | .stepMsg _ _ => True

/-- The invariant over an accumulator, in the constants of a context. -/
def AccGood (c : Ctx) (acc : Acc) : Prop :=
  (∀ e ∈ acc.evidence, EvGood c.skipWS e) ∧
  (∀ ev ∈ acc.trace, TGood c.deadline c.startedAt c.budgetMs c.ld c.skipWS ev)

theorem evGood_mk {skip : Bool} {t ti so co : String} {tags : List String}
    (cv : Rat) (h1 : (1 : Rat)/20 ≤ cv) (h2 : cv ≤ (9 : Rat)/10)
    (herr : "error" ∈ tags → t = "text" ∧ (cv = (1 : Rat)/10 ∨ cv = (1 : Rat)/5))
    (hws : skip = true → "web-search" ∉ tags) :
    EvGood skip ⟨t, ti, so, co, tags, some cv⟩ :=
  ⟨⟨cv, rfl, h1, h2⟩, fun hmem => by
      obtain ⟨ht, hc⟩ := herr hmem
      exact ⟨ht, hc.imp (fun h => by simp [h]) (fun h => by simp [h])⟩,
    hws⟩

theorem evGood_transfer {skipc skip : Bool} {e : EvidenceDraft}
    (h : EvGood skipc e) (hc : skipc = skip ∨ skipc = true) : EvGood skip e := by
  obtain ⟨h1, h2, h3⟩ := h
  refine ⟨h1, h2, ?_⟩
  rcases hc with hc | hc
  · exact fun hs => h3 (hc.trans hs)
  · exact fun _ => h3 hc

theorem tGood_transfer {dl s b ldc ld : Nat} {skipc skip : Bool} {ev : TraceEv}
    (h : TGood dl s b ldc skipc ev)
    (hc : (ldc = ld ∧ skipc = skip) ∨ skipc = true) :
    TGood dl s b ld skip ev := by
  cases ev with
  | subCall k cld ptgt tgt tt sw sa bu t => exact h
  | probe n l t => exact h
  | stepMsg m t => exact h
  | query q l t =>
    obtain ⟨ht, hl, hs⟩ := h
    rcases hc with ⟨hld, hsk⟩ | hsk
    · exact ⟨ht, hl.trans hld, hsk ▸ hs⟩
    · exact absurd (hsk.symm.trans hs) (by decide)

/-! Preservation of the invariant by the accumulator helpers. -/

theorem accGood_pushEv {c : Ctx} {acc : Acc} {e : EvidenceDraft}
    (h : AccGood c acc) (he : EvGood c.skipWS e) : AccGood c (pushEv acc e) := by
  refine ⟨?_, h.2⟩
  intro x hx
  rcases List.mem_append.mp hx with hx | hx
  · exact h.1 x hx
  · rw [List.mem_singleton.mp hx]; exact he

theorem accGood_pushTr {c : Ctx} {acc : Acc} {ev : TraceEv}
    (h : AccGood c acc)
    (hev : TGood c.deadline c.startedAt c.budgetMs c.ld c.skipWS ev) :
    AccGood c (pushTr acc ev) := by
  refine ⟨h.1, ?_⟩
  intro x hx
  rcases List.mem_append.mp hx with hx | hx
  · exact h.2 x hx
  · rw [List.mem_singleton.mp hx]; exact hev

theorem accGood_stepA {c : Ctx} {acc : Acc} {s : String}
    (h : AccGood c acc) : AccGood c (stepA acc s) :=
  accGood_pushTr h trivial

theorem accGood_addEnt {c : Ctx} {acc : Acc} {ty v : String}
    {md : List (String × String)} (h : AccGood c acc) :
    AccGood c (addEnt acc ty v md) := by
  simp only [addEnt]
  split
  · exact h
  · exact ⟨h.1, h.2⟩

theorem accGood_tick {c : Ctx} {acc : Acc} {d : Nat} (h : AccGood c acc) :
    AccGood c (tick acc d) :=
  ⟨h.1, h.2⟩

theorem accGood_risk {c : Ctx} {acc : Acc} {n : Nat} (h : AccGood c acc) :
    AccGood c { acc with risk := n } :=
  ⟨h.1, h.2⟩

theorem accGood_foldl {c : Ctx} {β : Type} {f : Acc → β → Acc}
    (hf : ∀ a x, AccGood c a → AccGood c (f a x)) :
    ∀ {l : List β} {a : Acc}, AccGood c a → AccGood c (List.foldl f a l) := by
  intro l
  induction l with
  | nil => intro a h; simpa using h
  | cons x xs ih =>
    intro a h
    simp only [List.foldl_cons]
    exact ih (hf a x h)

theorem accGood_mergeSub {c : Ctx} {acc : Acc} {out : RunOut} {ldc : Nat}
    {skipc : Bool} (h : AccGood c acc)
    (hev : ∀ e ∈ out.res.evidence, EvGood skipc e)
    (htr : ∀ ev ∈ out.trace, TGood c.deadline c.startedAt c.budgetMs ldc skipc ev)
    (hc : (ldc = c.ld ∧ skipc = c.skipWS) ∨ skipc = true) :
    AccGood c (mergeSub acc out) := by
  constructor
  · intro x hx
    rcases List.mem_append.mp hx with hx | hx
    · exact h.1 x hx
    · exact evGood_transfer (hev x hx) (hc.imp (fun hh => hh.2) id)
  · intro x hx
    rcases List.mem_append.mp hx with hx | hx
    · exact h.2 x hx
    · exact tGood_transfer (htr x hx) hc

/-- Collapse an early-return/continue result to its accumulator. -/
def exVal : Except Acc Acc → Acc
  | .ok a => a
  | .error a => a

theorem accGood_addEnts_fold {c : Ctx} {ty : String} {md : List (String × String)} :
    ∀ {l : List String} {a : Acc}, AccGood c a →
      AccGood c (List.foldl (fun a v => addEnt a ty v md) a l) :=
  accGood_foldl (fun a x ha => accGood_addEnt ha)

theorem dnsBlock_good {c : Ctx} {acc : Acc} (h : AccGood c acc) :
    AccGood c (exVal (dnsBlock c acc)) := by
  simp only [dnsBlock]
  split
  · exact h
  split
  · exact h
  rename_i htime
  have hlt : acc.now < c.deadline := Nat.lt_of_not_le htime
  cases h4 : c.env.dns4 c.target <;> simp only [h4] <;>
    cases h6 : c.env.dns6 c.target <;> simp only [h6] <;>
      cases hns : c.env.dnsNs c.target <;> simp only [hns] <;>
  · refine accGood_pushEv ?_ (evGood_mk (9/10) (by norm_num) (by norm_num)
      (fun hm => absurd hm (by decide)) (fun _ => by decide))
    repeat
      first
      | exact accGood_pushTr (accGood_stepA h) (fun _ => hlt)
      | apply accGood_addEnts_fold
      | apply accGood_tick

theorem accGood_addEnts_foldMap {c : Ctx} {ty : String}
    {md : List (String × String)} {g : String → String} :
    ∀ {l : List String} {a : Acc}, AccGood c a →
      AccGood c (List.foldl (fun a v => addEnt a ty (g v) md) a l) :=
  accGood_foldl (fun a x ha => accGood_addEnt ha)

theorem searchItemEnts_good {c : Ctx} {env : Env} {r : SearchRec} {acc : Acc}
    (h : AccGood c acc) : AccGood c (searchItemEnts env r acc) := by
  simp only [searchItemEnts]
  apply accGood_addEnts_foldMap
  apply accGood_addEnts_foldMap
  repeat
    first
    | apply accGood_addEnt
    | split
    | exact h

theorem accGood_searchFold {c : Ctx} {env : Env} :
    ∀ {l : List SearchRec} {a : Acc}, AccGood c a →
      AccGood c (List.foldl (fun a r => searchItemEnts env r a) a l) :=
  accGood_foldl (fun a x ha => searchItemEnts_good ha)

theorem searchLoop_good {c : Ctx} (label : String) (hskip : c.skipWS = false) :
    ∀ (qs : List String) {acc : Acc}, AccGood c acc →
      AccGood c (searchLoop c label qs acc) := by
  intro qs
  induction qs with
  | nil => intro acc h; simpa [searchLoop] using h
  | cons q rest ih =>
    intro acc h
    simp only [searchLoop]
    split
    · exact h
    rename_i htime
    have hlt : acc.now < c.deadline := Nat.lt_of_not_le htime
    split
    · rename_i resp heq
      refine ih ?_
      apply accGood_searchFold
      refine accGood_pushEv ?_ (evGood_mk _ (by split <;> norm_num) (by split <;> norm_num)
        (fun hm => absurd hm (by decide))
        (fun hcontra => absurd (hskip.symm.trans hcontra) (by decide)))
      exact accGood_tick (accGood_tick (accGood_pushTr (accGood_stepA h) ⟨hlt, rfl, hskip⟩))
    · rename_i m heq
      refine ih ?_
      refine accGood_pushEv ?_ (evGood_mk (1/10) (by norm_num) (by norm_num)
        (fun _ => ⟨rfl, Or.inl rfl⟩)
        (fun hcontra => absurd (hskip.symm.trans hcontra) (by decide)))
      exact accGood_tick (accGood_tick (accGood_pushTr (accGood_stepA h) ⟨hlt, rfl, hskip⟩))

theorem maybeWebSearch_good {c : Ctx} {queries : List String} {label : String}
    {acc : Acc} (h : AccGood c acc) :
    AccGood c (maybeWebSearch c queries label acc) := by
  simp only [maybeWebSearch]
  split
  · exact h
  split
  · exact h
  split
  · exact h
  rename_i hskip'
  have hskip : c.skipWS = false := by
    cases hcs : c.skipWS
    · rfl
    · exact absurd (by simp [hcs]) hskip'
  split
  · exact accGood_pushEv h (evGood_mk (1/20) (by norm_num) (by norm_num)
      (fun hm => absurd hm (by decide))
      (fun hcontra => absurd (hskip.symm.trans hcontra) (by decide)))
  · exact searchLoop_good label hskip _ h

theorem searchBlockMain_good {c : Ctx} {acc : Acc} (h : AccGood c acc) :
    AccGood c (searchBlockMain c acc) := by
  simp only [searchBlockMain]
  split
  · exact maybeWebSearch_good h
  · exact h

theorem geoBlock_good {c : Ctx} {acc : Acc} (h : AccGood c acc) :
    AccGood c (exVal (geoBlock c acc)) := by
  simp only [geoBlock]
  split
  · exact h
  split
  · exact h
  rename_i htime
  have hlt : acc.now < c.deadline := Nat.lt_of_not_le htime
  split
  · rename_i results heq
    repeat
      first
      | apply accGood_addEnt
      | split
      | refine accGood_pushEv
          (accGood_tick (accGood_tick (accGood_pushTr (accGood_stepA h) (fun _ => hlt))))
          (evGood_mk _ (by first | (split <;> norm_num) | norm_num)
            (by first | (split <;> norm_num) | norm_num)
            (fun hm => absurd hm (by decide)) (fun _ => by decide))
  · rename_i m heq
    exact accGood_pushEv
      (accGood_tick (accGood_tick (accGood_pushTr (accGood_stepA h) (fun _ => hlt))))
      (evGood_mk (1/10) (by norm_num) (by norm_num)
        (fun _ => ⟨rfl, Or.inl rfl⟩) (fun _ => by decide))

theorem wikidataBlock_good {c : Ctx} {acc : Acc} (h : AccGood c acc) :
    AccGood c (exVal (wikidataBlock c acc)) := by
  simp only [wikidataBlock]
  split
  · exact h
  split
  · exact h
  rename_i htime
  have hlt : acc.now < c.deadline := Nat.lt_of_not_le htime
  have hbase : ∀ (item : EvidenceDraft), EvGood c.skipWS item →
      AccGood c (pushEv (tick (tick (pushTr (stepA acc
        ("Wikidata search: " ++ c.target)) (.probe "wikidata" c.ld
          (stepA acc ("Wikidata search: " ++ c.target)).now)) 250)
        (c.env.fetchDur ("https://www.wikidata.org/w/api.php?action=wbsearchentities&search=" ++
          encodeURIComponent c.target ++ "&language=en&format=json&limit=5"))) item) :=
    fun item hit => accGood_pushEv
      (accGood_tick (accGood_tick (accGood_pushTr (accGood_stepA h) (fun _ => hlt)))) hit
  split
  · rename_i search heq
    have hs := hbase
      ⟨"json", "Wikidata search: " ++ c.target, "Wikidata", search.render,
        ["name", "wikidata"], some (1/2)⟩
      (evGood_mk (1/2) (by norm_num) (by norm_num)
        (fun hm => absurd hm (by decide)) (fun _ => by decide))
    repeat
      first
      | apply accGood_addEnt
      | split
      | refine accGood_pushEv (accGood_tick hs) (evGood_mk (3/5) (by norm_num) (by norm_num)
          (fun hm => absurd hm (by decide)) (fun _ => by decide))
      | refine accGood_pushEv (accGood_tick hs) (evGood_mk (1/10) (by norm_num) (by norm_num)
          (fun _ => ⟨rfl, Or.inl rfl⟩) (fun _ => by decide))
      | exact hs
  · rename_i m heq
    apply accGood_addEnt
    exact hbase _ (evGood_mk (1/10) (by norm_num) (by norm_num)
      (fun _ => ⟨rfl, Or.inl rfl⟩) (fun _ => by decide))

theorem rdapBlock_good {c : Ctx} {acc : Acc} (h : AccGood c acc) :
    AccGood c (exVal (rdapBlock c acc)) := by
  simp only [rdapBlock]
  split
  · exact h
  split
  · exact h
  rename_i htime
  have hlt : acc.now < c.deadline := Nat.lt_of_not_le htime
  split
  · rename_i rdap heq
    repeat
      first
      | apply accGood_addEnt
      | split
      | refine accGood_pushEv
          (accGood_tick (accGood_pushTr (accGood_stepA h) (fun _ => hlt)))
          (evGood_mk (9/10) (by norm_num) (by norm_num)
            (fun hm => absurd hm (by decide)) (fun _ => by decide))
  · rename_i m heq
    exact accGood_pushEv
      (accGood_tick (accGood_pushTr (accGood_stepA h) (fun _ => hlt)))
      (evGood_mk (1/10) (by norm_num) (by norm_num)
        (fun _ => ⟨rfl, Or.inl rfl⟩) (fun _ => by decide))

theorem crtBlock_good {c : Ctx} {acc : Acc} (h : AccGood c acc) :
    AccGood c (exVal (crtBlock c acc)) := by
  simp only [crtBlock]
  split
  · exact h
  split
  · exact h
  rename_i htime
  have hlt : acc.now < c.deadline := Nat.lt_of_not_le htime
  split
  · rename_i raw heq
    refine accGood_pushEv ?_ (evGood_mk (7/10) (by norm_num) (by norm_num)
      (fun hm => absurd hm (by decide)) (fun _ => by decide))
    split
    · apply accGood_risk
      apply accGood_addEnts_fold
      exact accGood_tick (accGood_pushTr (accGood_stepA h) (fun _ => hlt))
    · apply accGood_addEnts_fold
      exact accGood_tick (accGood_pushTr (accGood_stepA h) (fun _ => hlt))
  · rename_i m heq
    exact accGood_pushEv
      (accGood_tick (accGood_pushTr (accGood_stepA h) (fun _ => hlt)))
      (evGood_mk (1/5) (by norm_num) (by norm_num)
        (fun _ => ⟨rfl, Or.inr rfl⟩) (fun _ => by decide))

theorem githubBlock_good {c : Ctx} {acc : Acc} (h : AccGood c acc) :
    AccGood c (exVal (githubBlock c acc)) := by
  simp only [githubBlock]
  split
  · exact h
  split
  · exact h
  rename_i htime
  have hlt : acc.now < c.deadline := Nat.lt_of_not_le htime
  split
  · rename_i user heq
    repeat
      first
      | apply accGood_addEnt
      | split
      | refine accGood_pushEv
          (accGood_tick (accGood_pushTr (accGood_stepA h) (fun _ => hlt)))
          (evGood_mk (4/5) (by norm_num) (by norm_num)
            (fun hm => absurd hm (by decide)) (fun _ => by decide))
  · rename_i m heq
    exact accGood_pushEv
      (accGood_tick (accGood_pushTr (accGood_stepA h) (fun _ => hlt)))
      (evGood_mk (1/5) (by norm_num) (by norm_num)
        (fun _ => ⟨rfl, Or.inr rfl⟩) (fun _ => by decide))

theorem phoneBlock_good {c : Ctx} {acc : Acc} (h : AccGood c acc) :
    AccGood c (phoneBlock c acc) := by
  simp only [phoneBlock]
  split
  · exact h
  apply accGood_addEnt
  refine accGood_pushEv
    (accGood_pushTr (accGood_stepA h) (fun hm => absurd hm (by decide)))
    (evGood_mk _ (by split <;> norm_num) (by split <;> norm_num)
      (fun hm => absurd hm (by decide)) (fun _ => by decide))

theorem emailBlock_good {c : Ctx} {acc : Acc} (h : AccGood c acc) :
    AccGood c (emailBlock c acc) := by
  simp only [emailBlock]
  split
  · exact h
  have hbase : AccGood c (pushEv (pushTr (stepA acc ("Normalize email: " ++ c.target))
      (.probe "email-normalize" c.ld
        (stepA acc ("Normalize email: " ++ c.target)).now))
      ⟨"json", "Email normalization", "Parser",
        (Json.obj [("email", .str (lowerStr c.target)),
          ("domain", .str (((splitOnCh '@' (lowerStr c.target)).get? 1).getD ""))]).render,
        ["email"], some (7/10)⟩) :=
    accGood_pushEv (accGood_pushTr (accGood_stepA h) (fun hm => absurd hm (by decide)))
      (evGood_mk (7/10) (by norm_num) (by norm_num)
        (fun hm => absurd hm (by decide)) (fun _ => by decide))
  split
  · exact accGood_addEnt hbase
  · exact hbase

/-! The resolved time-budget constants of an invocation. -/

/-- The budget an invocation resolves from its options. -/
def budgetOf (opts : Opts) : Nat :=
  opts.timeBudgetMs.getD (if opts.depth.getD "normal" = "thorough" then 300000 else 90000)

/-- The start time an invocation resolves (the caller's clock by default). -/
def startOf (opts : Opts) (now0 : Nat) : Nat := opts.startedAtMs.getD now0

/-- The shared deadline `startedAt + budget`. -/
def deadlineOf (opts : Opts) (now0 : Nat) : Nat := startOf opts now0 + budgetOf opts

/-- Goodness of a recursive invocation, as delivered by the fuel induction. -/
def RecurseGood (recurse : Recurse) : Prop :=
  ∀ ld input opts now0 out, recurse ld input opts now0 = some out →
    (∀ e ∈ out.res.evidence, EvGood opts.skipWebSearch e) ∧
    (∀ ev ∈ out.trace,
      TGood (deadlineOf opts now0) (startOf opts now0) (budgetOf opts)
        ld opts.skipWebSearch ev)

theorem caseLoop_good {c : Ctx} {recurse : Recurse} (hrec : RecurseGood recurse)
    (hsw : c.opts.skipWebSearch = c.skipWS) :
    ∀ (inds : List Indicator) {acc acc' : Acc}, AccGood c acc →
      caseLoop recurse c inds acc = some acc' → AccGood c acc' := by
  intro inds
  induction inds with
  | nil =>
    intro acc acc' h he
    simp only [caseLoop] at he
    cases he
    exact h
  | cons ind rest ih =>
    intro acc acc' h he
    simp only [caseLoop] at he
    split at he
    · cases he
      exact accGood_stepA h
    · rename_i htime
      have hlt : acc.now < c.deadline := Nat.lt_of_not_le htime
      split at he
      · exact absurd he (by simp)
      · rename_i out hout
        refine ih ?_ he
        have hsub := hrec _ _ _ _ out hout
        refine accGood_mergeSub ?_ hsub.1 ?_ (Or.inl ⟨rfl, by simpa using hsw⟩)
        · refine accGood_pushTr (accGood_stepA h) ⟨hlt, rfl, rfl, ?_⟩
          intro hk
          exact absurd hk (by decide)
        · intro ev hev
          have := hsub.2 ev hev
          simpa [deadlineOf, startOf, budgetOf, Ctx.deadline] using this

theorem leadLoop_good {c : Ctx} {recurse : Recurse} (hrec : RecurseGood recurse)
    (ty : String) :
    ∀ (ds seen : List String) {acc acc' : Acc} {seen' : List String},
      AccGood c acc →
      (∀ d ∈ ds, lowerStr d ≠ lowerStr c.target) →
      leadLoop recurse c ty ds seen acc = some (acc', seen') → AccGood c acc' := by
  intro ds
  induction ds with
  | nil =>
    intro seen acc acc' seen' h _ he
    simp only [leadLoop] at he
    cases he
    exact h
  | cons d rest ih =>
    intro seen acc acc' seen' h hne he
    simp only [leadLoop] at he
    split at he
    · cases he
      exact h
    · rename_i htime
      have hlt : acc.now < c.deadline := Nat.lt_of_not_le htime
      split at he
      · exact ih seen h (fun x hx => hne x (List.mem_cons_of_mem _ hx)) he
      · split at he
        · exact absurd he (by simp)
        · rename_i out hout
          have hsub := hrec _ _ _ _ out hout
          have htr : ∀ ev ∈ out.trace,
              TGood c.deadline c.startedAt c.budgetMs (c.ld + 1) true ev := by
            intro ev hev
            have := hsub.2 ev hev
            simpa [deadlineOf, startOf, budgetOf, Ctx.deadline] using this
          have hev2 : ∀ e ∈ out.res.evidence, EvGood true e := by
            intro e he2
            simpa using hsub.1 e he2
          refine ih _ ?_ (fun x hx => hne x (List.mem_cons_of_mem _ hx)) he
          refine accGood_mergeSub ?_ hev2 htr (Or.inr rfl)
          refine accGood_pushTr (accGood_stepA h) ⟨hlt, rfl, rfl, ?_⟩
          intro _
          exact ⟨rfl, hne d (List.mem_cons_self d rest)⟩

theorem leadBlock_good {c : Ctx} {recurse : Recurse} (hrec : RecurseGood recurse)
    {acc acc' : Acc} (h : AccGood c acc)
    (he : leadBlock recurse c acc = some acc') : AccGood c acc' := by
  simp only [leadBlock] at he
  split at he
  · cases he
    exact h
  · split at he
    · exact absurd he (by simp)
    · rename_i p1 hl1
      split at he
      · exact absurd he (by simp)
      · rename_i p2 hl2
        cases he
        have h1 : AccGood c p1.1 := by
          obtain ⟨acc1, seen1⟩ := p1
          exact leadLoop_good hrec "domain" _ [] h
            (fun x hx => (leadsOf_ne_target _ _ _ _ x hx).2) hl1
        obtain ⟨acc2, seen2⟩ := p2
        exact leadLoop_good hrec "username" _ p1.2 h1
          (fun x hx => (leadsOf_ne_target _ _ _ _ x hx).2) hl2

theorem caseBranch_good {c : Ctx} {recurse : Recurse} (hrec : RecurseGood recurse)
    (hsw : c.opts.skipWebSearch = c.skipWS) {acc : Acc} {rawTarget : String}
    {out : RunOut} (h0 : AccGood c acc)
    (he : caseBranch recurse c rawTarget acc = some out) :
    (∀ e ∈ out.res.evidence, EvGood c.skipWS e) ∧
    (∀ ev ∈ out.trace,
      TGood c.deadline c.startedAt c.budgetMs c.ld c.skipWS ev) := by
  simp only [caseBranch] at he
  split at he
  · exact absurd he (by simp)
  · rename_i a hcl
    cases he
    have h1 : AccGood c
        (pushEv (pushEv (stepA acc ("Foundation parsing: extracting indicators (" ++
          toString (extractIndicators c.env.re (jsTrim rawTarget)).length ++ ")"))
          ⟨"json", "Case description (input)", "Case Intake",
            (Json.obj [("description", .str (jsTrim rawTarget))]).render,
            ["case", "intake"], some (9/10)⟩)
          ⟨"json", "Extracted indicators", "Parser",
            (Json.arr ((extractIndicators c.env.re (jsTrim rawTarget)).map (fun i =>
              Json.obj [("type", .str i.type), ("value", .str i.value)]))).render,
            ["case", "indicators"], some (7/10)⟩) :=
      accGood_pushEv
        (accGood_pushEv (accGood_stepA h0)
          (evGood_mk (9/10) (by norm_num) (by norm_num)
            (fun hm => absurd hm (by decide)) (fun _ => by decide)))
        (evGood_mk (7/10) (by norm_num) (by norm_num)
          (fun hm => absurd hm (by decide)) (fun _ => by decide))
    have h2 : AccGood c a := caseLoop_good hrec hsw _ h1 hcl
    have h3 : AccGood c (maybeWebSearch c
        (caseQueries (extractIndicators c.env.re (jsTrim rawTarget)) c.depth)
        "case primary leads" a) := maybeWebSearch_good h2
    exact ⟨h3.1, h3.2⟩

theorem nonCaseChain_good {c : Ctx} {recurse : Recurse} (hrec : RecurseGood recurse)
    {acc : Acc} {r : Except Acc Acc} (h0 : AccGood c acc)
    (he : nonCaseChain recurse c acc = some r) : AccGood c (exVal r) := by
  simp only [nonCaseChain] at he
  cases hd : dnsBlock c acc with
  | error a =>
    simp only [hd] at he
    cases he
    simpa [hd, exVal] using dnsBlock_good h0
  | ok a =>
    simp only [hd] at he
    have ha : AccGood c a := by simpa [hd, exVal] using dnsBlock_good h0
    cases hg : geoBlock c a with
    | error b =>
      simp only [hg] at he
      cases he
      simpa [hg, exVal] using geoBlock_good ha
    | ok b =>
      simp only [hg] at he
      have hb : AccGood c b := by simpa [hg, exVal] using geoBlock_good ha
      cases hw : wikidataBlock c b with
      | error d =>
        simp only [hw] at he
        cases he
        simpa [hw, exVal] using wikidataBlock_good hb
      | ok d =>
        simp only [hw] at he
        have hd2 : AccGood c d := by simpa [hw, exVal] using wikidataBlock_good hb
        have hd3 : AccGood c (searchBlockMain c d) := searchBlockMain_good hd2
        split at he
        · exact absurd he (by simp)
        · rename_i a2 hlb
          have ha2 : AccGood c a2 := leadBlock_good hrec hd3 hlb
          have ha3 : AccGood c (phoneBlock c a2) := phoneBlock_good ha2
          cases hr : rdapBlock c (phoneBlock c a2) with
          | error b2 =>
            simp only [hr] at he
            cases he
            simpa [hr, exVal] using rdapBlock_good ha3
          | ok b2 =>
            simp only [hr] at he
            have hb2 : AccGood c b2 := by simpa [hr, exVal] using rdapBlock_good ha3
            cases hc2 : crtBlock c b2 with
            | error d2 =>
              simp only [hc2] at he
              cases he
              simpa [hc2, exVal] using crtBlock_good hb2
            | ok d2 =>
              simp only [hc2] at he
              have hd4 : AccGood c d2 := by simpa [hc2, exVal] using crtBlock_good hb2
              cases hg2 : githubBlock c d2 with
              | error f =>
                simp only [hg2] at he
                cases he
                simpa [hg2, exVal] using githubBlock_good hd4
              | ok f =>
                simp only [hg2] at he
                have hf : AccGood c f := by simpa [hg2, exVal] using githubBlock_good hd4
                cases he
                simpa [exVal] using emailBlock_good hf

/-- The master invariant: every finished invocation yields only good
evidence items, and only good trace events relative to the invocation's
resolved deadline, start time, budget, ghost lead depth and
`skipWebSearch` flag. -/
theorem runGood :
    ∀ (fuel : Nat) (env : Env) (ld : Nat) (input : Input) (opts : Opts)
      (now0 : Nat) (out : RunOut),
      runSafeOsintCollection env fuel ld input opts now0 = some out →
      (∀ e ∈ out.res.evidence, EvGood opts.skipWebSearch e) ∧
      (∀ ev ∈ out.trace,
        TGood (deadlineOf opts now0) (startOf opts now0) (budgetOf opts)
          ld opts.skipWebSearch ev) := by
  intro fuel
  induction fuel with
  | zero =>
    intro env ld input opts now0 out he
    simp [runSafeOsintCollection] at he
  | succ fuel ih =>
    intro env ld input opts now0 out he
    have hrec : RecurseGood (runSafeOsintCollection env fuel) :=
      fun ld' i' o' n' out' h' => ih env ld' i' o' n' out' h'
    simp only [runSafeOsintCollection] at he
    split at he
    · have hacc0 : AccGood
          { env := env, target := normalizeTarget input.target,
            ttype := input.targetType.getD (guessTargetType (normalizeTarget input.target)),
            depth := opts.depth.getD "normal",
            startedAt := opts.startedAtMs.getD now0,
            budgetMs := opts.timeBudgetMs.getD
              (if opts.depth.getD "normal" = "thorough" then 300000 else 90000),
            skipWS := opts.skipWebSearch, ld := ld, opts := opts }
          { evidence := [], entities := [], risk := 0, now := now0, trace := [] } :=
        ⟨by simp, by simp⟩
      have := caseBranch_good hrec rfl hacc0 he
      exact ⟨this.1, by
        intro ev hev
        have := this.2 ev hev
        simpa [deadlineOf, startOf, budgetOf, Ctx.deadline] using this⟩
    · split at he
      · exact absurd he (by simp)
      all_goals
        rename_i a hnc
      all_goals
        have hacc0 : AccGood
            { env := env, target := normalizeTarget input.target,
              ttype := input.targetType.getD (guessTargetType (normalizeTarget input.target)),
              depth := opts.depth.getD "normal",
              startedAt := opts.startedAtMs.getD now0,
              budgetMs := opts.timeBudgetMs.getD
                (if opts.depth.getD "normal" = "thorough" then 300000 else 90000),
              skipWS := opts.skipWebSearch, ld := ld, opts := opts }
            { evidence := [], entities := [], risk := 0, now := now0, trace := [] } :=
          ⟨by simp, by simp⟩
      all_goals
        have hgood := nonCaseChain_good hrec hacc0 hnc
        cases he
        refine ⟨?_, ?_⟩
      all_goals
        first
        | (intro e hev
           exact hgood.1 e hev)
        | (intro ev hev
           have := hgood.2 ev hev
           simpa [deadlineOf, startOf, budgetOf, Ctx.deadline] using this)

/-! Evidence is append-only: support lemmas for the case-branch shape. -/

theorem addEnt_evidence (acc : Acc) (ty v : String) (md : List (String × String)) :
    (addEnt acc ty v md).evidence = acc.evidence := by
  simp only [addEnt]
  split <;> rfl

theorem searchItemEnts_evidence (env : Env) (r : SearchRec) (acc : Acc) :
    (searchItemEnts env r acc).evidence = acc.evidence := by
  simp only [searchItemEnts]
  have hfold : ∀ (g : String → String) (ty : String) (md : List (String × String))
      (l : List String) (a : Acc),
      (List.foldl (fun a v => addEnt a ty (g v) md) a l).evidence = a.evidence := by
    intro g ty md l
    induction l with
    | nil => intro a; rfl
    | cons x xs ih =>
      intro a
      simp only [List.foldl_cons]
      rw [ih, addEnt_evidence]
  rw [hfold, hfold]
  repeat
    first
    | rw [addEnt_evidence]
    | split
    | rfl

theorem foldl_searchItemEnts_evidence (env : Env) :
    ∀ (l : List SearchRec) (a : Acc),
      (List.foldl (fun a r => searchItemEnts env r a) a l).evidence = a.evidence := by
  intro l
  induction l with
  | nil => intro a; rfl
  | cons x xs ih =>
    intro a
    simp only [List.foldl_cons]
    rw [ih, searchItemEnts_evidence]

theorem searchLoop_evidence_ext (c : Ctx) (label : String) :
    ∀ (qs : List String) (acc : Acc) (base : List EvidenceDraft),
      (∃ d, acc.evidence = base ++ d) →
      ∃ Δ, (searchLoop c label qs acc).evidence = base ++ Δ := by
  intro qs
  induction qs with
  | nil =>
    intro acc base h
    simpa [searchLoop] using h
  | cons q rest ih =>
    intro acc base h
    simp only [searchLoop]
    split
    · exact h
    split
    · apply ih
      obtain ⟨d, hd⟩ := h
      exact ⟨_, by
        rw [foldl_searchItemEnts_evidence]
        simp only [pushEv, tick, pushTr, stepA]
        rw [hd, List.append_assoc]⟩
    · apply ih
      obtain ⟨d, hd⟩ := h
      exact ⟨_, by
        simp only [pushEv, tick, pushTr, stepA]
        rw [hd, List.append_assoc]⟩

theorem searchLoop_appends (c : Ctx) (label : String) (qs : List String) (acc : Acc) :
    ∃ Δ, (searchLoop c label qs acc).evidence = acc.evidence ++ Δ :=
  searchLoop_evidence_ext c label qs acc acc.evidence ⟨[], by simp⟩

theorem maybeWebSearch_appends (c : Ctx) (queries : List String) (label : String)
    (acc : Acc) :
    ∃ Δ, (maybeWebSearch c queries label acc).evidence = acc.evidence ++ Δ := by
  simp only [maybeWebSearch]
  split
  · exact ⟨[], by simp⟩
  split
  · exact ⟨[], by simp⟩
  split
  · exact ⟨[], by simp⟩
  split
  · exact ⟨_, rfl⟩
  · exact searchLoop_appends c label _ acc

theorem caseLoop_evidence_ext {recurse : Recurse} {c : Ctx} :
    ∀ (inds : List Indicator) (acc : Acc) (base : List EvidenceDraft) (acc' : Acc),
      (∃ d, acc.evidence = base ++ d) →
      caseLoop recurse c inds acc = some acc' →
      ∃ Δ, acc'.evidence = base ++ Δ := by
  intro inds
  induction inds with
  | nil =>
    intro acc base acc' h he
    simp only [caseLoop] at he
    cases he
    exact h
  | cons ind rest ih =>
    intro acc base acc' h he
    simp only [caseLoop] at he
    split at he
    · cases he
      obtain ⟨d, hd⟩ := h
      exact ⟨d, by simp [stepA, pushTr, hd]⟩
    · split at he
      · exact absurd he (by simp)
      · refine ih _ _ _ ?_ he
        obtain ⟨d, hd⟩ := h
        exact ⟨_, by
          simp only [mergeSub, pushTr, stepA]
          rw [hd, List.append_assoc]⟩

theorem caseLoop_appends {recurse : Recurse} {c : Ctx} (inds : List Indicator)
    (acc acc' : Acc) (he : caseLoop recurse c inds acc = some acc') :
    ∃ Δ, acc'.evidence = acc.evidence ++ Δ :=
  caseLoop_evidence_ext inds acc acc.evidence acc' ⟨[], by simp⟩ he

/-! Positivity of the aggregated confidence when every item carries a
confidence in `[0.05, 0.9]`. -/

theorem sum_lower (a : Rat) :
    ∀ (l : List Rat), (∀ x ∈ l, a ≤ x) → a * (l.length : Rat) ≤ l.sum := by
  intro l
  induction l with
  | nil => intro _; simp
  | cons x xs ih =>
    intro h
    have hx : a ≤ x := h x (List.mem_cons_self x xs)
    have hxs := ih (fun y hy => h y (List.mem_cons_of_mem _ hy))
    simp only [List.sum_cons, List.length_cons]
    push_cast
    nlinarith [hx, hxs]

theorem rat_floor_mono {a b : Rat} (h : a ≤ b) : Rat.floor a ≤ Rat.floor b := by
  rw [Rat.le_floor]
  exact le_trans (Rat.le_floor.mp (le_refl _)) h

theorem round3_mono {a b : Rat} (h : a ≤ b) : round3 a ≤ round3 b := by
  unfold round3
  have h2 : (a * 1000 + 1/2 : Rat) ≤ b * 1000 + 1/2 := by nlinarith
  have hfl := rat_floor_mono h2
  have hq : (((a * 1000 + 1/2 : Rat).floor : Int) : Rat) ≤
      (((b * 1000 + 1/2 : Rat).floor : Int) : Rat) := by exact_mod_cast hfl
  have h1000 : (0 : Rat) < 1000 := by norm_num
  exact (div_le_div_iff_of_pos_right h1000).mpr hq

theorem computeConfidence_pos (ev : List EvidenceDraft)
    (hsome : ∃ e ∈ ev, ∃ cv, e.conf = some cv ∧ (1 : Rat)/20 ≤ cv ∧ cv ≤ (9 : Rat)/10)
    (hall : ∀ e ∈ ev, ∃ cv, e.conf = some cv ∧ (1 : Rat)/20 ≤ cv ∧ cv ≤ (9 : Rat)/10) :
    0 < computeConfidence ev := by
  obtain ⟨e0, he0, cv0, hc0, hl0, hu0⟩ := hsome
  have hmem : cv0 ∈ confVals ev := by
    unfold confVals
    refine List.mem_filter.mpr ⟨?_, ?_⟩
    · exact List.mem_filterMap.mpr ⟨e0, he0, hc0⟩
    · simp only [Bool.and_eq_true, decide_eq_true_eq]
      constructor <;> nlinarith
  have hne : confVals ev ≠ [] := fun hnil => by simp [hnil] at hmem
  have hlow : ∀ v ∈ confVals ev, (1 : Rat)/20 ≤ v := by
    intro v hv
    unfold confVals at hv
    obtain ⟨hv1, _⟩ := List.mem_filter.mp hv
    obtain ⟨e, he, hce⟩ := List.mem_filterMap.mp hv1
    obtain ⟨cv, hcv, hlcv, _⟩ := hall e he
    rw [hcv] at hce
    rw [← Option.some.inj hce]
    exact hlcv
  rw [computeConfidence_def]
  have hlen : (confVals ev).length ≠ 0 := by
    simpa [List.length_eq_zero] using hne
  rw [if_neg hlen]
  have hlenpos : (0 : Rat) < ((confVals ev).length : Rat) := by
    have : 0 < (confVals ev).length := Nat.pos_of_ne_zero hlen
    exact_mod_cast this
  have hmean : (1 : Rat)/20 ≤ (confVals ev).sum / ((confVals ev).length : Rat) := by
    rw [le_div_iff hlenpos]
    exact sum_lower (1/20) (confVals ev) hlow
  have hr3 : (1 : Rat)/20 ≤ round3 ((confVals ev).sum / ((confVals ev).length : Rat)) := by
    have := round3_mono hmean
    have h20 : round3 ((1 : Rat)/20) = (1 : Rat)/20 := by decide
    rw [h20] at this
    exact this
  have hposr : (0 : Rat) < round3 ((confVals ev).sum / ((confVals ev).length : Rat)) := by
    nlinarith
  have hmin : (0 : Rat) < min 1 (round3 ((confVals ev).sum / ((confVals ev).length : Rat))) :=
    lt_min (by norm_num) hposr
  exact lt_max_of_lt_right hmin

/-! The shape of the case branch's evidence, and the email-path block chain. -/

/-- The case-intake evidence item the case branch always pushes first. -/
def caseIntakeEv (rawTarget : String) : EvidenceDraft :=
  { type := "json", title := "Case description (input)", source := "Case Intake",
    content := (Json.obj [("description", .str (jsTrim rawTarget))]).render,
    tags := ["case", "intake"], conf := some (9/10 : Rat) }

/-- The extracted-indicators evidence item the case branch pushes second. -/
def caseIndEv (re : ReEngine) (rawTarget : String) : EvidenceDraft :=
  { type := "json", title := "Extracted indicators", source := "Parser",
    content := (Json.arr ((extractIndicators re (jsTrim rawTarget)).map (fun i =>
      Json.obj [("type", .str i.type), ("value", .str i.value)]))).render,
    tags := ["case", "indicators"], conf := some (7/10 : Rat) }

theorem caseBranch_evidence {recurse : Recurse} {c : Ctx} (rawTarget : String)
    {acc : Acc} (hacc : acc.evidence = []) {out : RunOut}
    (h : caseBranch recurse c rawTarget acc = some out) :
    (∃ rest, out.res.evidence =
      caseIntakeEv rawTarget :: caseIndEv c.env.re rawTarget :: rest) ∧
    out.res.confidence = computeConfidence out.res.evidence := by
  simp only [caseBranch] at h
  split at h
  · exact absurd h (by simp)
  · rename_i a hcl
    cases h
    refine ⟨?_, rfl⟩
    obtain ⟨Δ, hΔ⟩ := caseLoop_evidence_ext _ _
      [caseIntakeEv rawTarget, caseIndEv c.env.re rawTarget] _
      ⟨[], by simp [pushEv, pushTr, stepA, hacc, caseIntakeEv, caseIndEv]⟩ hcl
    obtain ⟨Δ2, h2⟩ := maybeWebSearch_appends c
      (caseQueries (extractIndicators c.env.re (jsTrim rawTarget)) c.depth)
      "case primary leads" a
    refine ⟨Δ ++ Δ2, ?_⟩
    simp only [mkOut]
    rw [h2, hΔ]
    simp

theorem emailBlock_evidence (c : Ctx) (acc : Acc) (hty : c.ttype = "email") :
    (emailBlock c acc).evidence = acc.evidence ++
      [{ type := "json", title := "Email normalization", source := "Parser",
         content := (Json.obj [("email", .str (lowerStr c.target)),
           ("domain", .str (((splitOnCh '@' (lowerStr c.target)).get? 1).getD ""))]).render,
         tags := ["email"], conf := some ((7 : Rat)/10) }] := by
  simp only [emailBlock]
  rw [if_neg (by rw [hty]; decide)]
  split
  · rw [addEnt_evidence]
    simp [pushEv, pushTr, stepA]
  · simp [pushEv, pushTr, stepA]

/-- For an email-typed invocation every other probe block is a no-op, so the
non-case chain is the primary search, lead-following, then email
normalization. -/
theorem nonCaseChain_email {recurse : Recurse} {c : Ctx} (hty : c.ttype = "email")
    (acc : Acc) :
    nonCaseChain recurse c acc =
      match leadBlock recurse c (searchBlockMain c acc) with
      | none => none
      | some a => some (.ok (emailBlock c a)) := by
  have hdns : ∀ a : Acc, dnsBlock c a = .ok a := fun a => by
    simp only [dnsBlock]; rw [if_pos (by rw [hty]; decide)]
  have hgeo : ∀ a : Acc, geoBlock c a = .ok a := fun a => by
    simp only [geoBlock]; rw [if_pos (by rw [hty]; decide)]
  have hwik : ∀ a : Acc, wikidataBlock c a = .ok a := fun a => by
    simp only [wikidataBlock]; rw [if_pos (by rw [hty]; decide)]
  have hphone : ∀ a : Acc, phoneBlock c a = a := fun a => by
    simp only [phoneBlock]; rw [if_pos (by rw [hty]; decide)]
  have hrdap : ∀ a : Acc, rdapBlock c a = .ok a := fun a => by
    simp only [rdapBlock]; rw [if_pos (by rw [hty]; decide)]
  have hcrt : ∀ a : Acc, crtBlock c a = .ok a := fun a => by
    simp only [crtBlock]; rw [if_pos (by rw [hty]; decide)]
  have hgit : ∀ a : Acc, githubBlock c a = .ok a := fun a => by
    simp only [githubBlock]; rw [if_pos (by rw [hty]; decide)]
  simp only [nonCaseChain, hdns, hgeo, hwik, hphone, hrdap, hcrt, hgit]

/-- The value the non-case chain returns for an email-typed invocation is
always the final (`.ok`) value, produced by the email block. -/
theorem nonCaseChain_email_shape {recurse : Recurse} {c : Ctx} {acc : Acc}
    {r : Except Acc Acc} (h : nonCaseChain recurse c acc = some r)
    (hty : c.ttype = "email") :
    ∃ b, r = .ok (emailBlock c b) := by
  rw [nonCaseChain_email hty] at h
  split at h
  · exact absurd h (by simp)
  · rename_i b hlb
    cases h
    exact ⟨b, rfl⟩

/-- C6 witness: the extractor facts at a concrete regex engine and text. -/
theorem c6_extract_witness :
    ((extractIndicators reNone "Jane Doe, 42 Main Street").countP
        (fun i => i.type == "email") ≤ 3) ∧
    ((extractIndicators reNone "Jane Doe, 42 Main Street").countP
        (fun i => i.type == "ip") ≤ 3) ∧
    ((extractIndicators reNone "Jane Doe, 42 Main Street").countP
        (fun i => i.type == "domain") ≤ 3) ∧
    ((extractIndicators reNone "Jane Doe, 42 Main Street").countP
        (fun i => i.type == "phone") ≤ 2) ∧
    ((extractIndicators reNone "Jane Doe, 42 Main Street").countP
        (fun i => i.type == "address") ≤ 1) ∧
    ((extractIndicators reNone "Jane Doe, 42 Main Street").countP
        (fun i => i.type == "name") ≤ 1) ∧
    ((extractIndicators reNone "Jane Doe, 42 Main Street").map
        (fun i => lowerStr (i.type ++ ":" ++ i.value))).Nodup ∧
    (∀ i ∈ extractIndicators reNone "Jane Doe, 42 Main Street",
      i.type ≠ "username" ∧ i.type ≠ "case") ∧
    (∀ e ∈ emailsOf reNone "Jane Doe, 42 Main Street", ∀ d,
      (splitOnCh '@' e).get? 1 = some d → d ≠ "" →
      lowerStr d ∈ domainPool reNone "Jane Doe, 42 Main Street") ∧
    (∀ i ∈ extractIndicators reNone "Jane Doe, 42 Main Street", i.type = "domain" →
      ∃ v ∈ (domainPool reNone "Jane Doe, 42 Main Street").take 3, i.value = jsTrim v) :=
  c6_extract reNone "Jane Doe, 42 Main Street"

/-! Claim C1 — the shared deadline. -/

/-- C1 counterexample: with `timeBudgetMs = 0` the shared deadline
(`startedAt + budget = 0`) has already passed on entry, yet the
phone-normalization probe still runs — its probe event is recorded at
time 0, which is not before the deadline — and appends its evidence item.
The deadline is therefore not checked before every probe. -/
theorem c1_counterexample :
    ∃ out, runSafeOsintCollection envBase 1 0
        { target := "(555) 123-4567", targetType := some "phone" }
        { timeBudgetMs := some 0 } 0 = some out ∧
      TraceEv.probe "phone-normalize" 0 0 ∈ out.trace ∧
      ¬ (0 < deadlineOf { timeBudgetMs := some 0 } 0) ∧
      out.res.evidence.map (fun e => e.title) = ["Phone normalization"] :=
  ⟨_, rfl, by decide, by decide, by decide⟩

/-- C1 (amended): throughout a run, every deadline-gated probe event (DNS,
geocode, knowledge-base, RDAP, Certificate Transparency, GitHub), every
web-search query dispatch and every recursive sub-invocation starts strictly
before the single shared deadline `startOf + budgetOf`, and every recursive
sub-invocation records the caller's start time and budget unchanged; the
phone- and email-normalization probes are not deadline-gated. -/
theorem c1_shared_deadline (fuel : Nat) (env : Env) (ld : Nat) (input : Input)
    (opts : Opts) (now0 : Nat) (out : RunOut)
    (h : runSafeOsintCollection env fuel ld input opts now0 = some out) :
    ∀ ev ∈ out.trace,
      (∀ n l t, ev = TraceEv.probe n l t → n ∈ gatedProbes →
        t < deadlineOf opts now0) ∧
      (∀ q l t, ev = TraceEv.query q l t → t < deadlineOf opts now0) ∧
      (∀ k cld pt tgt tt sw sa bu t, ev = TraceEv.subCall k cld pt tgt tt sw sa bu t →
        t < deadlineOf opts now0 ∧ sa = startOf opts now0 ∧ bu = budgetOf opts) := by
  intro ev hev
  have hg := (runGood fuel env ld input opts now0 out h).2 ev hev
  refine ⟨?_, ?_, ?_⟩
  · intro n l t hevq hn
    subst hevq
    exact hg hn
  · intro q l t hevq
    subst hevq
    exact hg.1
  · intro k cld pt tgt tt sw sa bu t hevq
    subst hevq
    exact ⟨hg.1, hg.2.1, hg.2.2.1⟩

/-- C1 witness: the deadline facts at a concrete finished run. -/
theorem c1_shared_deadline_witness :
    ∃ out, runSafeOsintCollection envBase 1 0
        { target := "jdoe", targetType := some "username" } {} 0 = some out ∧
      ∀ ev ∈ out.trace,
        (∀ n l t, ev = TraceEv.probe n l t → n ∈ gatedProbes →
          t < deadlineOf {} 0) ∧
        (∀ q l t, ev = TraceEv.query q l t → t < deadlineOf {} 0) ∧
        (∀ k cld pt tgt tt sw sa bu t, ev = TraceEv.subCall k cld pt tgt tt sw sa bu t →
          t < deadlineOf {} 0 ∧ sa = startOf {} 0 ∧ bu = budgetOf {}) :=
  ⟨_, rfl, c1_shared_deadline 1 envBase 0
    { target := "jdoe", targetType := some "username" } {} 0 _ rfl⟩

/-! Claim C2 — entity de-duplication. -/

/-- C2 counterexample: a deadline early return hands back the raw entity
list — here the A record `1.2.3.4` twice — with no de-duplication applied
(`viaFinal = false` marks the early-return path). -/
theorem c2_counterexample :
    ∃ out, runSafeOsintCollection envDupIps 1 0
        { target := "a.com", targetType := some "domain" }
        { timeBudgetMs := some 1 } 0 = some out ∧
      out.res.entities.map (fun e => (e.entityType, e.value)) =
        [("ip", "1.2.3.4"), ("ip", "1.2.3.4")] ∧
      ¬ ((out.res.entities.map entityKey).Nodup) ∧
      out.res.viaFinal = false :=
  ⟨_, rfl, by decide, by decide, by decide⟩

/-- C2 (amended): `dedupEntities` is a stable first-seen-wins filter keyed by
`lower(type) ++ ":" ++ lower(value)` — the kept list is a subsequence with
pairwise distinct keys and each kept element is the first occurrence of its
key, metadata included — and every result returned through the end-of-run
path (`viaFinal = true`) has deduplicated entities; a deadline early return
skips the de-duplication (see the counterexample). -/
theorem c2_entity_dedup :
    (∀ l : List EntityDraft,
      ((dedupEntities l).map entityKey).Nodup ∧
      (dedupEntities l).Sublist l ∧
      (∀ x ∈ dedupEntities l,
        l.find? (fun y => entityKey y == entityKey x) = some x)) ∧
    (∀ (fuel : Nat) (env : Env) (ld : Nat) (input : Input) (opts : Opts)
        (now0 : Nat) (out : RunOut),
      runSafeOsintCollection env fuel ld input opts now0 = some out →
      out.res.viaFinal = true → ((out.res.entities).map entityKey).Nodup) := by
  constructor
  · intro l
    exact ⟨dedupByKey_keys_nodup entityKey l, dedupByKey_sublist entityKey l,
      fun x hx => dedupByKey_find entityKey l x hx⟩
  · intro fuel env ld input opts now0 out h hvf
    cases fuel with
    | zero => simp [runSafeOsintCollection] at h
    | succ fuel =>
      simp only [runSafeOsintCollection] at h
      split at h
      · simp only [caseBranch] at h
        split at h
        · exact absurd h (by simp)
        · cases h
          exact dedupByKey_keys_nodup entityKey _
      · split at h
        · exact absurd h (by simp)
        · cases h
          simp [mkOut] at hvf
        · cases h
          exact dedupByKey_keys_nodup entityKey _

/-- C2 witness: the de-duplication facts at a two-element list with a
case-insensitive key collision, and the final-path fact at a finished run. -/
theorem c2_entity_dedup_witness :
    (((dedupEntities [⟨"IP", "1.2.3.4", [("first", "a")]⟩,
        ⟨"ip", "1.2.3.4", [("second", "b")]⟩]).map entityKey).Nodup ∧
      (dedupEntities [⟨"IP", "1.2.3.4", [("first", "a")]⟩,
        ⟨"ip", "1.2.3.4", [("second", "b")]⟩]).Sublist
        [⟨"IP", "1.2.3.4", [("first", "a")]⟩, ⟨"ip", "1.2.3.4", [("second", "b")]⟩] ∧
      (∀ x ∈ dedupEntities [⟨"IP", "1.2.3.4", [("first", "a")]⟩,
          ⟨"ip", "1.2.3.4", [("second", "b")]⟩],
        [(⟨"IP", "1.2.3.4", [("first", "a")]⟩ : EntityDraft),
         ⟨"ip", "1.2.3.4", [("second", "b")]⟩].find?
          (fun y => entityKey y == entityKey x) = some x)) ∧
    (∃ out, runSafeOsintCollection envBase 1 0
        { target := "a.com", targetType := some "domain" } {} 2 = some out ∧
      (out.res.viaFinal = true → ((out.res.entities).map entityKey).Nodup)) :=
  ⟨c2_entity_dedup.1 _,
    ⟨_, rfl, fun hvf => c2_entity_dedup.2 1 envBase 0
      { target := "a.com", targetType := some "domain" } {} 2 _ rfl hvf⟩⟩

/-! Claim C3 — depth of lead-following recursion. -/

/-- C3 counterexample: following the nameserver chain `a.com → b.com →
A.COM`, the lead-following invocation on `b.com` (lead depth 1) itself
performs a lead-following recursion (the `subCall "lead"` event at child
lead depth 2) — lead-following is not a single level of recursion. -/
theorem c3_counterexample :
    ∃ out, runSafeOsintCollection envNsChain 5 0
        { target := "a.com", targetType := some "domain" } {} 0 = some out ∧
      TraceEv.subCall "lead" 1 "a.com" "b.com" "domain" true 0 90000 0 ∈ out.trace ∧
      TraceEv.subCall "lead" 2 "b.com" "A.COM" "domain" true 0 90000 0 ∈ out.trace :=
  ⟨_, rfl, by decide, by decide⟩

/-- C3 (amended): lead-following recursion is bounded by the shared deadline
and the `skipWebSearch = true` flag, not by a depth bound: every
lead-following sub-invocation, at any nesting depth, starts strictly before
the shared deadline, carries `skipWebSearch = true` and inherits the shared
start time and budget. -/
theorem c3_lead_recursion (fuel : Nat) (env : Env) (ld : Nat) (input : Input)
    (opts : Opts) (now0 : Nat) (out : RunOut)
    (h : runSafeOsintCollection env fuel ld input opts now0 = some out) :
    ∀ ev ∈ out.trace, ∀ cld pt tgt tt sw sa bu t,
      ev = TraceEv.subCall "lead" cld pt tgt tt sw sa bu t →
      t < deadlineOf opts now0 ∧ sw = true ∧
        sa = startOf opts now0 ∧ bu = budgetOf opts := by
  intro ev hev cld pt tgt tt sw sa bu t hevq
  have hg := (runGood fuel env ld input opts now0 out h).2 ev hev
  subst hevq
  exact ⟨hg.1, (hg.2.2.2 rfl).1, hg.2.1, hg.2.2.1⟩

/-- C3 witness: the lead-recursion facts at a concrete run that follows a
lead. -/
theorem c3_lead_recursion_witness :
    ∃ out, runSafeOsintCollection envNsChain 3 0
        { target := "b.com", targetType := some "domain" } {} 0 = some out ∧
      ∀ ev ∈ out.trace, ∀ cld pt tgt tt sw sa bu t,
        ev = TraceEv.subCall "lead" cld pt tgt tt sw sa bu t →
        t < deadlineOf {} 0 ∧ sw = true ∧ sa = startOf {} 0 ∧ bu = budgetOf {} :=
  ⟨_, rfl, c3_lead_recursion 3 envNsChain 0
    { target := "b.com", targetType := some "domain" } {} 0 _ rfl⟩

/-! Claim C4 — web-search suppression on lead-following recursion. -/

/-- C4: every lead-following sub-invocation is made with
`skipWebSearch = true`, and in any invocation whose options set
`skipWebSearch` the web-search component dispatches no query and records no
web-search-tagged evidence. -/
theorem c4_skip_suppression (fuel : Nat) (env : Env) (ld : Nat) (input : Input)
    (opts : Opts) (now0 : Nat) (out : RunOut)
    (h : runSafeOsintCollection env fuel ld input opts now0 = some out) :
    (∀ ev ∈ out.trace, ∀ cld pt tgt tt sw sa bu t,
      ev = TraceEv.subCall "lead" cld pt tgt tt sw sa bu t → sw = true) ∧
    (opts.skipWebSearch = true →
      (∀ ev ∈ out.trace, ∀ q l t, ev ≠ TraceEv.query q l t) ∧
      (∀ e ∈ out.res.evidence, "web-search" ∉ e.tags)) := by
  have hg := runGood fuel env ld input opts now0 out h
  refine ⟨?_, ?_⟩
  · intro ev hev cld pt tgt tt sw sa bu t hevq
    have := hg.2 ev hev
    subst hevq
    exact (this.2.2.2 rfl).1
  · intro hskip
    refine ⟨?_, ?_⟩
    · intro ev hev q l t hevq
      have := hg.2 ev hev
      subst hevq
      have hfalse := this.2.2
      rw [hskip] at hfalse
      exact absurd hfalse (by decide)
    · intro e he
      exact (hg.1 e he).2.2 hskip

/-- C4 witness: the suppression facts at a concrete run with
`skipWebSearch = true`. -/
theorem c4_skip_suppression_witness :
    ∃ out, runSafeOsintCollection envBase 1 0
        { target := "a.com", targetType := some "domain" }
        { skipWebSearch := true } 0 = some out ∧
      (∀ ev ∈ out.trace, ∀ q l t, ev ≠ TraceEv.query q l t) ∧
      (∀ e ∈ out.res.evidence, "web-search" ∉ e.tags) :=
  ⟨_, rfl,
    ((c4_skip_suppression 1 envBase 0 { target := "a.com", targetType := some "domain" }
      { skipWebSearch := true } 0 _ rfl).2 rfl).1,
    ((c4_skip_suppression 1 envBase 0 { target := "a.com", targetType := some "domain" }
      { skipWebSearch := true } 0 _ rfl).2 rfl).2⟩

/-! Claim C7 — local error recovery. -/

/-- C7: every error-tagged evidence item anywhere in a run is a text item
with confidence 0.1 or 0.2; and a concrete run in which every external
source fails still returns a full `CollectionResult` through the final path,
with the failed RDAP and Certificate Transparency probes each degraded to a
text error item and the run continuing past them. -/
theorem c7_error_evidence :
    (∀ (fuel : Nat) (env : Env) (ld : Nat) (input : Input) (opts : Opts)
        (now0 : Nat) (out : RunOut),
      runSafeOsintCollection env fuel ld input opts now0 = some out →
      ∀ e ∈ out.res.evidence, "error" ∈ e.tags →
        e.type = "text" ∧
          (e.conf = some ((1 : Rat)/10) ∨ e.conf = some ((1 : Rat)/5))) ∧
    (∃ out, runSafeOsintCollection envBase 1 0
        { target := "a.com", targetType := some "domain" } {} 0 = some out ∧
      out.res.evidence.map (fun e => (e.title, e.type, e.tags.contains "error")) =
        [("DNS records for a.com", "json", false),
         ("Web search skipped (no provider configured): domain", "json", false),
         ("RDAP lookup failed for a.com", "text", true),
         ("crt.sh query failed for a.com", "text", true)] ∧
      out.res.viaFinal = true) := by
  constructor
  · intro fuel env ld input opts now0 out h e he htag
    exact ((runGood fuel env ld input opts now0 out h).1 e he).2.1 htag
  · exact ⟨_, rfl, by decide, by decide⟩

/-- C7 witness: the error-item facts at a concrete failing-RDAP run. -/
theorem c7_error_evidence_witness :
    ∃ out, runSafeOsintCollection envBase 1 0
        { target := "198.51.100.7", targetType := some "ip" } {} 0 = some out ∧
      ∀ e ∈ out.res.evidence, "error" ∈ e.tags →
        e.type = "text" ∧
          (e.conf = some ((1 : Rat)/10) ∨ e.conf = some ((1 : Rat)/5)) :=
  ⟨_, rfl, fun e he htag => c7_error_evidence.1 1 envBase 0
    { target := "198.51.100.7", targetType := some "ip" } {} 0 _ rfl e he htag⟩

/-! Claim C8 — append order of the branches. -/

/-- C8 counterexample: on the nameserver chain `a.com → b.com → A.COM` the
evidence produced by lead-following (the sub-collections of `b.com` and
`A.COM`, starting with "DNS records for b.com") precedes the root
invocation's own type-specific RDAP and Certificate Transparency evidence
("RDAP lookup failed for a.com") — the source runs lead-following before
the phone/RDAP/CT/GitHub/email probes, not after them. -/
theorem c8_counterexample :
    ∃ out, runSafeOsintCollection envNsChain 5 0
        { target := "a.com", targetType := some "domain" } {} 1 = some out ∧
      out.res.evidence.map (fun e => e.title) =
        ["DNS records for a.com", "Web search skipped (no provider configured): domain",
         "DNS records for b.com", "DNS records for A.COM", "RDAP lookup failed for A.COM",
         "crt.sh query failed for A.COM", "RDAP lookup failed for b.com",
         "crt.sh query failed for b.com", "RDAP lookup failed for a.com",
         "crt.sh query failed for a.com"] ∧
      (out.res.evidence.map (fun e => e.title)).findIdx
          (fun t => t == "DNS records for b.com") <
        (out.res.evidence.map (fun e => e.title)).findIdx
          (fun t => t == "RDAP lookup failed for a.com") :=
  ⟨_, rfl, by decide, by decide⟩

/-- C8 (amended): within one invocation the branches append in the source
order DNS/geocode/knowledge-base, then primary web search, then
lead-following, then phone normalization, RDAP, Certificate Transparency,
GitHub and email normalization; in particular, for an email-typed invocation
the email-normalization item is always the last evidence item, after
everything lead-following appended. -/
theorem c8_email_after_leads (fuel : Nat) (env : Env) (ld : Nat) (input : Input)
    (opts : Opts) (now0 : Nat) (out : RunOut)
    (hty : input.targetType.getD (guessTargetType (normalizeTarget input.target)) =
      "email")
    (h : runSafeOsintCollection env fuel ld input opts now0 = some out) :
    ∃ pre e, out.res.evidence = pre ++ [e] ∧ e.title = "Email normalization" ∧
      e.source = "Parser" ∧ e.conf = some ((7 : Rat)/10) := by
  cases fuel with
  | zero => simp [runSafeOsintCollection] at h
  | succ fuel =>
    simp only [runSafeOsintCollection] at h
    rw [if_neg (by rw [hty]; decide)] at h
    split at h
    · exact absurd h (by simp)
    · rename_i a hnc
      obtain ⟨b, hb⟩ := nonCaseChain_email_shape hnc hty
      exact absurd hb (by simp)
    · rename_i a hnc
      cases h
      obtain ⟨b, hb⟩ := nonCaseChain_email_shape hnc hty
      injection hb with hba
      subst hba
      exact ⟨_, _, emailBlock_evidence _ b hty, rfl, rfl, rfl⟩

/-- C8 witness: a concrete email run whose last evidence item is the email
normalization. -/
theorem c8_email_after_leads_witness :
    ∃ out, runSafeOsintCollection envBase 1 0
        { target := "User@Site.com", targetType := some "email" } {} 0 = some out ∧
      ∃ pre e, out.res.evidence = pre ++ [e] ∧ e.title = "Email normalization" ∧
        e.source = "Parser" ∧ e.conf = some ((7 : Rat)/10) :=
  ⟨_, rfl, c8_email_after_leads 1 envBase 0
    { target := "User@Site.com", targetType := some "email" } {} 0 _ rfl rfl⟩

/-! Claim C9 — lead exclusion and caps. -/

/-- C9 counterexample: the exclusion is checked against the *current*
invocation's target only — on the nameserver chain the depth-2 invocation
(target `b.com`) follows the lead `A.COM`, which is the original top-level
target `a.com` up to case, so the original target is re-processed. -/
theorem c9_counterexample :
    ∃ out, runSafeOsintCollection envNsChain 5 0
        { target := "a.com", targetType := some "domain" } {} 3 = some out ∧
      TraceEv.subCall "lead" 2 "b.com" "A.COM" "domain" true 3 90000 3 ∈ out.trace ∧
      lowerStr "A.COM" = normalizeTarget "a.com" :=
  ⟨_, rfl, by decide, by decide⟩

/-- C9 (amended): every lead-following sub-invocation's target differs
case-insensitively from the target of the invocation that follows the lead
(but not necessarily from the original top-level target), and the lead
candidates of each category are non-empty values, pairwise distinct
case-insensitively and capped at the `followMax` count (1 normal /
4 thorough in `leadBlock`). -/
theorem c9_lead_exclusion_caps :
    (∀ (fuel : Nat) (env : Env) (ld : Nat) (input : Input) (opts : Opts)
        (now0 : Nat) (out : RunOut),
      runSafeOsintCollection env fuel ld input opts now0 = some out →
      ∀ ev ∈ out.trace, ∀ cld pt tgt tt sw sa bu t,
        ev = TraceEv.subCall "lead" cld pt tgt tt sw sa bu t →
        lowerStr tgt ≠ lowerStr pt) ∧
    (∀ (ty target : String) (followMax : Nat) (entities : List EntityDraft),
      (leadsOf ty target followMax entities).length ≤ followMax ∧
      (∀ d ∈ leadsOf ty target followMax entities,
        d ≠ "" ∧ lowerStr d ≠ lowerStr target) ∧
      ((leadsOf ty target followMax entities).map (fun v => lowerStr v)).Nodup) := by
  constructor
  · intro fuel env ld input opts now0 out h ev hev cld pt tgt tt sw sa bu t hevq
    have hg := (runGood fuel env ld input opts now0 out h).2 ev hev
    subst hevq
    exact (hg.2.2.2 rfl).2
  · intro ty target followMax entities
    exact ⟨leadsOf_length ty target followMax entities,
      leadsOf_ne_target ty target followMax entities,
      leadsOf_nodup_lower ty target followMax entities⟩

/-- C9 witness: the exclusion fact at a concrete run and the candidate facts
at a concrete entity list. -/
theorem c9_lead_exclusion_caps_witness :
    (∃ out, runSafeOsintCollection envNsChain 4 0
        { target := "B.COM", targetType := some "domain" } {} 0 = some out ∧
      ∀ ev ∈ out.trace, ∀ cld pt tgt tt sw sa bu t,
        ev = TraceEv.subCall "lead" cld pt tgt tt sw sa bu t →
        lowerStr tgt ≠ lowerStr pt) ∧
    ((leadsOf "domain" "a.com" 1
        [⟨"domain", "b.com", []⟩, ⟨"domain", "c.com", []⟩]).length ≤ 1 ∧
      (∀ d ∈ leadsOf "domain" "a.com" 1
          [⟨"domain", "b.com", []⟩, ⟨"domain", "c.com", []⟩],
        d ≠ "" ∧ lowerStr d ≠ lowerStr "a.com") ∧
      ((leadsOf "domain" "a.com" 1
        [⟨"domain", "b.com", []⟩, ⟨"domain", "c.com", []⟩]).map
          (fun v => lowerStr v)).Nodup) :=
  ⟨⟨_, rfl, c9_lead_exclusion_caps.1 4 envNsChain 0
      { target := "B.COM", targetType := some "domain" } {} 0 _ rfl⟩,
    c9_lead_exclusion_caps.2 "domain" "a.com" 1
      [⟨"domain", "b.com", []⟩, ⟨"domain", "c.com", []⟩]⟩

/-! Claim C10 — the case branch's unconditional intake evidence. -/

/-- C10: every invocation whose resolved target type is `"case"` returns an
evidence sequence that begins with the "Case description (input)" item
(source "Case Intake", confidence 0.9) followed by the "Extracted
indicators" item (source "Parser", confidence 0.7), regardless of the time
budget, and its returned confidence is strictly positive. -/
theorem c10_case_intake (fuel : Nat) (env : Env) (ld : Nat) (input : Input)
    (opts : Opts) (now0 : Nat) (out : RunOut)
    (hty : input.targetType.getD (guessTargetType (normalizeTarget input.target)) =
      "case")
    (h : runSafeOsintCollection env fuel ld input opts now0 = some out) :
    (∃ rest, out.res.evidence =
      { type := "json", title := "Case description (input)", source := "Case Intake",
        content := (Json.obj [("description", .str (jsTrim input.target))]).render,
        tags := ["case", "intake"], conf := some ((9 : Rat)/10) } ::
      { type := "json", title := "Extracted indicators", source := "Parser",
        content := (Json.arr ((extractIndicators env.re (jsTrim input.target)).map
          (fun i => Json.obj [("type", .str i.type), ("value", .str i.value)]))).render,
        tags := ["case", "indicators"], conf := some ((7 : Rat)/10) } :: rest) ∧
    0 < out.res.confidence := by
  have hgood := runGood fuel env ld input opts now0 out h
  cases fuel with
  | zero => simp [runSafeOsintCollection] at h
  | succ fuel =>
    simp only [runSafeOsintCollection] at h
    rw [if_pos hty] at h
    have hsh := caseBranch_evidence input.target rfl h
    obtain ⟨rest, hrest⟩ := hsh.1
    refine ⟨⟨rest, by simpa [caseIntakeEv, caseIndEv] using hrest⟩, ?_⟩
    rw [hsh.2]
    apply computeConfidence_pos
    · refine ⟨caseIntakeEv input.target, ?_, 9/10, rfl, by norm_num, by norm_num⟩
      rw [hrest]
      exact List.mem_cons_self _ _
    · intro e he
      exact (hgood.1 e he).1

/-- C10 witness: the intake shape and positive confidence at a concrete case
run with an already-expired budget. -/
theorem c10_case_intake_witness :
    ∃ out, runSafeOsintCollection envBase 1 0
        { target := "Investigate suspicious activity", targetType := some "case" }
        { timeBudgetMs := some 0 } 0 = some out ∧
      (∃ rest, out.res.evidence =
        { type := "json", title := "Case description (input)", source := "Case Intake",
          content := (Json.obj [("description",
            .str (jsTrim "Investigate suspicious activity"))]).render,
          tags := ["case", "intake"], conf := some ((9 : Rat)/10) } ::
        { type := "json", title := "Extracted indicators", source := "Parser",
          content := (Json.arr ((extractIndicators envBase.re
            (jsTrim "Investigate suspicious activity")).map
            (fun i => Json.obj [("type", .str i.type), ("value", .str i.value)]))).render,
          tags := ["case", "indicators"], conf := some ((7 : Rat)/10) } :: rest) ∧
      0 < out.res.confidence :=
  ⟨_, rfl, c10_case_intake 1 envBase 0
    { target := "Investigate suspicious activity", targetType := some "case" }
    { timeBudgetMs := some 0 } 0 _ rfl rfl⟩

end Osint
